import Mathlib

/-!
Verification development for the core of the garage object store
(block manager and resync loop, object/key CRDT tables, multipart
completion, server-side copy preconditions, cluster-layout handling).

Rust source files are embedded shallowly: pure functions become Lean
functions, stateful code becomes explicit state passing, RPC effects
become oracles supplied as arguments, and machine integers (u64)
become `Nat` (all arithmetic performed by the source stays far below
2^64, as noted where relevant).
-/

set_option maxHeartbeats 1000000

/-! ### Comparator machinery

Rust's `#[derive(PartialOrd, Ord)]` compares constructor tags first and
then fields lexicographically; `Vec`/`BTreeMap`/`String` compare
lexicographically.  We embed derived orders with explicit comparator
functions built from the combinators below, and the `AutoCrdt` blanket
merge (`garage_util::crdt`, whose source is not in the repo snapshot;
modelled from the spec sentence "All persistent entities are CRDTs whose
merge is associative, commutative, idempotent": the blanket impl keeps
the larger of the two values in the derived total order) as `mergeOfCmp`.
-/

/-- Comparator induced by a linear order. -/
def cmpOfLE {α : Type} [LinearOrder α] (a b : α) : Ordering :=
  if a < b then .lt else if b < a then .gt else .eq

/-- Lexicographic comparator on lists (Rust `Vec`/`BTreeMap` order). -/
def cmpList {α : Type} (c : α → α → Ordering) : List α → List α → Ordering
  | [], [] => .eq
  | [], _ :: _ => .lt
  | _ :: _, [] => .gt
  | a :: as, b :: bs => (c a b).then (cmpList c as bs)

/-- Comparator on `Option` (Rust derives `None < Some`). -/
def cmpOption {α : Type} (c : α → α → Ordering) : Option α → Option α → Ordering
  | none, none => .eq
  | none, some _ => .lt
  | some _, none => .gt
  | some a, some b => c a b

/-- Lexicographic comparator on pairs (derived struct/tuple order). -/
def cmpProd {α β : Type} (ca : α → α → Ordering) (cb : β → β → Ordering)
    (x y : α × β) : Ordering :=
  (ca x.1 y.1).then (cb x.2 y.2)

/-- The laws a comparator needs for `mergeOfCmp` to be a lattice join. -/
structure IsLawfulCmp {α : Type} (c : α → α → Ordering) : Prop where
  refl : ∀ a, c a a = .eq
  eq_of : ∀ {a b}, c a b = .eq → a = b
  swap_eq : ∀ a b, (c a b).swap = c b a
  lt_trans : ∀ {a b d}, c a b = .lt → c b d = .lt → c a d = .lt

theorem orderingThen_eq_eq {o1 o2 : Ordering} :
    o1.then o2 = .eq ↔ o1 = .eq ∧ o2 = .eq := by
  cases o1 <;> simp [Ordering.then]

theorem orderingThen_swap (o1 o2 : Ordering) :
    (o1.then o2).swap = o1.swap.then o2.swap := by
  cases o1 <;> cases o2 <;> rfl

theorem cmpOfLE_lt_iff {α : Type} [LinearOrder α] {a b : α} :
    cmpOfLE a b = .lt ↔ a < b := by
  unfold cmpOfLE
  split_ifs with h1 h2 <;> simp [h1]

theorem isLawfulCmp_cmpOfLE {α : Type} [LinearOrder α] :
    IsLawfulCmp (cmpOfLE (α := α)) := by
  constructor
  · intro a; simp [cmpOfLE]
  · intro a b h
    unfold cmpOfLE at h
    split_ifs at h with h1 h2
    exact le_antisymm (not_lt.mp h2) (not_lt.mp h1)
  · intro a b
    rcases lt_trichotomy a b with h | h | h
    · simp [cmpOfLE, h, lt_asymm h, Ordering.swap]
    · subst h; simp [cmpOfLE, lt_irrefl, Ordering.swap]
    · simp [cmpOfLE, h, lt_asymm h, Ordering.swap]
  · intro a b d h1 h2
    rw [cmpOfLE_lt_iff] at h1 h2 ⊢
    exact lt_trans h1 h2

theorem isLawfulCmp_cmpList {α : Type} {c : α → α → Ordering}
    (hc : IsLawfulCmp c) : IsLawfulCmp (cmpList c) := by
  constructor
  · intro l
    induction l with
    | nil => rfl
    | cons a as ih => simp [cmpList, hc.refl, Ordering.then, ih]
  · intro a b h
    induction a generalizing b with
    | nil =>
      cases b with
      | nil => rfl
      | cons b bs => simp [cmpList] at h
    | cons x xs ih =>
      cases b with
      | nil => simp [cmpList] at h
      | cons y ys =>
        simp only [cmpList, orderingThen_eq_eq] at h
        rw [hc.eq_of h.1, ih h.2]
  · intro a b
    induction a generalizing b with
    | nil => cases b <;> rfl
    | cons x xs ih =>
      cases b with
      | nil => rfl
      | cons y ys =>
        simp only [cmpList, orderingThen_swap, hc.swap_eq, ih]
  · intro a b d h1 h2
    induction a generalizing b d with
    | nil =>
      cases b with
      | nil => simp [cmpList] at h1
      | cons y ys =>
        cases d with
        | nil => simp [cmpList] at h2
        | cons z zs => simp [cmpList]
    | cons x xs ih =>
      cases b with
      | nil => simp [cmpList] at h1
      | cons y ys =>
        cases d with
        | nil => simp [cmpList] at h2
        | cons z zs =>
          simp only [cmpList] at h1 h2 ⊢
          cases hxy : c x y <;> rw [hxy] at h1 <;> simp only [Ordering.then] at h1
          · -- c x y = lt
            cases hyz : c y z <;> rw [hyz] at h2 <;> simp only [Ordering.then] at h2
            · rw [hc.lt_trans hxy hyz]; rfl
            · have hy := hc.eq_of hyz; subst hy
              rw [hxy]; rfl
            · cases h2
          · -- c x y = eq
            have hy := hc.eq_of hxy; subst hy
            cases hxz : c x z <;> rw [hxz] at h2 <;> simp only [Ordering.then] at h2
            · rfl
            · have hz := hc.eq_of hxz; subst hz
              simpa [Ordering.then] using ih h1 h2
            · cases h2
          · cases h1

theorem isLawfulCmp_cmpOption {α : Type} {c : α → α → Ordering}
    (hc : IsLawfulCmp c) : IsLawfulCmp (cmpOption c) := by
  constructor
  · intro a
    cases a with
    | none => rfl
    | some x => exact hc.refl x
  · intro a b h
    cases a <;> cases b <;> simp only [cmpOption] at h ⊢
    · exact absurd h (by simp)
    · exact absurd h (by simp)
    · rw [hc.eq_of h]
  · intro a b
    cases a <;> cases b <;> simp only [cmpOption]
    · rfl
    · rfl
    · rfl
    · exact hc.swap_eq _ _
  · intro a b d h1 h2
    cases a <;> cases b <;> cases d <;> simp only [cmpOption] at h1 h2 ⊢ <;>
      first
        | exact hc.lt_trans h1 h2
        | simp at h1
        | simp at h2
        | trivial

theorem isLawfulCmp_cmpProd {α β : Type} {ca : α → α → Ordering}
    {cb : β → β → Ordering} (ha : IsLawfulCmp ca) (hb : IsLawfulCmp cb) :
    IsLawfulCmp (cmpProd ca cb) := by
  constructor
  · intro a; simp [cmpProd, ha.refl, hb.refl, Ordering.then]
  · intro a b h
    obtain ⟨a1, a2⟩ := a; obtain ⟨b1, b2⟩ := b
    simp only [cmpProd, orderingThen_eq_eq] at h
    rw [ha.eq_of h.1, hb.eq_of h.2]
  · intro a b
    simp only [cmpProd, orderingThen_swap, ha.swap_eq, hb.swap_eq]
  · intro a b d h1 h2
    obtain ⟨a1, a2⟩ := a; obtain ⟨b1, b2⟩ := b; obtain ⟨d1, d2⟩ := d
    simp only [cmpProd] at h1 h2 ⊢
    cases hab : ca a1 b1 <;> rw [hab] at h1 <;> simp only [Ordering.then] at h1
    · cases hbd : ca b1 d1 <;> rw [hbd] at h2 <;> simp only [Ordering.then] at h2
      · rw [ha.lt_trans hab hbd]; rfl
      · have h := ha.eq_of hbd; subst h
        rw [hab]; rfl
      · cases h2
    · have h := ha.eq_of hab; subst h
      cases had : ca a1 d1 <;> rw [had] at h2 <;> simp only [Ordering.then] at h2
      · rfl
      · have h := ha.eq_of had; subst h
        simpa [Ordering.then] using hb.lt_trans h1 h2
      · cases h2
    · cases h1

/-- `AutoCrdt` blanket merge: keep the larger value in the derived total
order (modelled from the spec, see section header). -/
def mergeOfCmp {α : Type} (c : α → α → Ordering) (a b : α) : α :=
  if c a b = .lt then b else a

theorem mergeOfCmp_idem {α : Type} {c : α → α → Ordering}
    (hc : IsLawfulCmp c) (a : α) : mergeOfCmp c a a = a := by
  simp [mergeOfCmp, hc.refl]

theorem mergeOfCmp_comm {α : Type} {c : α → α → Ordering}
    (hc : IsLawfulCmp c) (a b : α) : mergeOfCmp c a b = mergeOfCmp c b a := by
  unfold mergeOfCmp
  cases h : c a b with
  | lt =>
    have h' : c b a = .gt := by rw [← hc.swap_eq a b, h]; rfl
    simp [h, h']
  | eq =>
    have h' := hc.eq_of h
    subst h'
    simp [hc.refl]
  | gt =>
    have h' : c b a = .lt := by rw [← hc.swap_eq a b, h]; rfl
    simp [h, h']

theorem mergeOfCmp_assoc {α : Type} {c : α → α → Ordering}
    (hc : IsLawfulCmp c) (a b d : α) :
    mergeOfCmp c (mergeOfCmp c a b) d = mergeOfCmp c a (mergeOfCmp c b d) := by
  unfold mergeOfCmp
  cases hab : c a b with
  | lt =>
    cases hbd : c b d with
    | lt =>
      have had := hc.lt_trans hab hbd
      simp [hab, hbd, had]
    | eq =>
      have h := hc.eq_of hbd; subst h
      simp [hab]
    | gt => simp [hab, hbd]
  | eq =>
    have h := hc.eq_of hab; subst h
    cases had : c a d with
    | lt => simp [hc.refl, had]
    | eq =>
      have h := hc.eq_of had; subst h
      simp [hc.refl]
    | gt => simp [hc.refl, had]
  | gt =>
    cases hbd : c b d with
    | lt => simp [hab, hbd]
    | eq =>
      have h := hc.eq_of hbd; subst h
      simp [hab]
    | gt =>
      have hba : c b a = .lt := by rw [← hc.swap_eq a b, hab]; rfl
      have hdb : c d b = .lt := by rw [← hc.swap_eq b d, hbd]; rfl
      have hda := hc.lt_trans hdb hba
      have had : c a d = .gt := by rw [← hc.swap_eq d a, hda]; rfl
      simp [hab, hbd, had]

/-! ### Object table model (`src/model/s3/object_table.rs`, v09 format)

`Uuid` and `Hash` (32-byte identifiers) are modelled as `Nat`; their only
relevant structure is a decidable total order and equality.  `BTreeMap`
becomes a sorted association list.  u64 timestamps/sizes become `Nat`.
-/

/-- Additional headers for an object (`ObjectVersionHeaders`). -/
structure ObjectVersionHeaders where
  content_type : String
  other : List (String × String)
deriving DecidableEq, Repr

/-- Metadata about the object version (`ObjectVersionMeta`). -/
structure ObjectVersionMeta where
  headers : ObjectVersionHeaders
  size : Nat
  etag : String
deriving DecidableEq, Repr

/-- Data stored in an object version (`ObjectVersionData`). -/
inductive ObjectVersionData where
  | deleteMarker
  | inline (meta : ObjectVersionMeta) (bytes : List Nat)
  | firstBlock (meta : ObjectVersionMeta) (hash : Nat)
deriving DecidableEq, Repr

/-- State of an object version (`ObjectVersionState`, v09). -/
inductive ObjectVersionState where
  | uploading (multipart : Bool) (headers : ObjectVersionHeaders)
  | complete (data : ObjectVersionData)
  | aborted
deriving DecidableEq, Repr

/-- Information about a version of an object (`ObjectVersion`). -/
structure ObjectVersion where
  uuid : Nat
  timestamp : Nat
  state : ObjectVersionState
deriving DecidableEq, Repr

/-- An object (`Object`): partition key `bucket_id`, sort key `key`,
and the list of currently stored versions. -/
structure Object where
  bucket_id : Nat
  key : String
  versions : List ObjectVersion
deriving DecidableEq, Repr

/-! Rust `#[derive(Ord)]` order on `ObjectVersionData` and its nested
structs, written as comparators on injective product encodings. -/

def ObjectVersionHeaders.enc (h : ObjectVersionHeaders) :
    String × List (String × String) :=
  (h.content_type, h.other)

def cmpHeaders (a b : ObjectVersionHeaders) : Ordering :=
  cmpProd cmpOfLE (cmpList (cmpProd cmpOfLE cmpOfLE)) a.enc b.enc

def ObjectVersionMeta.enc (m : ObjectVersionMeta) :
    ObjectVersionHeaders × Nat × String :=
  (m.headers, m.size, m.etag)

def cmpMeta (a b : ObjectVersionMeta) : Ordering :=
  cmpProd cmpHeaders (cmpProd cmpOfLE cmpOfLE) a.enc b.enc

/-- Tag-then-fields encoding of `ObjectVersionData` mirroring the derived
`Ord`: `DeleteMarker < Inline < FirstBlock`, fields lexicographic. -/
def ObjectVersionData.enc (d : ObjectVersionData) :
    Nat × Option (ObjectVersionMeta × List Nat) × Option (ObjectVersionMeta × Nat) :=
  match d with
  | .deleteMarker => (0, none, none)
  | .inline m b => (1, some (m, b), none)
  | .firstBlock m h => (2, none, some (m, h))

def cmpData (a b : ObjectVersionData) : Ordering :=
  cmpProd cmpOfLE
    (cmpProd (cmpOption (cmpProd cmpMeta (cmpList cmpOfLE)))
      (cmpOption (cmpProd cmpMeta cmpOfLE)))
    a.enc b.enc

theorem isLawfulCmp_comp {α β : Type} {c : β → β → Ordering}
    (hc : IsLawfulCmp c) (f : α → β) (hf : ∀ {a b}, f a = f b → a = b) :
    IsLawfulCmp (fun a b => c (f a) (f b)) := by
  constructor
  · intro a; exact hc.refl _
  · intro a b h; exact hf (hc.eq_of h)
  · intro a b; exact hc.swap_eq _ _
  · intro a b d h1 h2; exact hc.lt_trans h1 h2

theorem isLawfulCmp_cmpHeaders : IsLawfulCmp cmpHeaders := by
  have h := isLawfulCmp_comp
    (isLawfulCmp_cmpProd isLawfulCmp_cmpOfLE
      (isLawfulCmp_cmpList (isLawfulCmp_cmpProd isLawfulCmp_cmpOfLE isLawfulCmp_cmpOfLE)))
    ObjectVersionHeaders.enc
    (by intro a b hab
        cases a; cases b
        simpa [ObjectVersionHeaders.enc, Prod.ext_iff] using hab)
  exact h

theorem isLawfulCmp_cmpMeta : IsLawfulCmp cmpMeta := by
  have h := isLawfulCmp_comp
    (isLawfulCmp_cmpProd isLawfulCmp_cmpHeaders
      (isLawfulCmp_cmpProd isLawfulCmp_cmpOfLE isLawfulCmp_cmpOfLE))
    ObjectVersionMeta.enc
    (by intro a b hab
        cases a; cases b
        simpa [ObjectVersionMeta.enc, Prod.ext_iff] using hab)
  exact h

theorem isLawfulCmp_cmpData : IsLawfulCmp cmpData := by
  have h := isLawfulCmp_comp
    (isLawfulCmp_cmpProd isLawfulCmp_cmpOfLE
      (isLawfulCmp_cmpProd
        (isLawfulCmp_cmpOption (isLawfulCmp_cmpProd isLawfulCmp_cmpMeta
          (isLawfulCmp_cmpList isLawfulCmp_cmpOfLE)))
        (isLawfulCmp_cmpOption (isLawfulCmp_cmpProd isLawfulCmp_cmpMeta
          isLawfulCmp_cmpOfLE))))
    ObjectVersionData.enc
    (by intro a b hab
        cases a <;> cases b <;>
          simp_all [ObjectVersionData.enc, Prod.ext_iff])
  exact h

/-- `impl AutoCrdt for ObjectVersionData` (blanket merge; see comparator
section header for the spec-modelled `AutoCrdt` semantics). -/
def ObjectVersionData.merge (a b : ObjectVersionData) : ObjectVersionData :=
  mergeOfCmp cmpData a b

/-- `impl Crdt for ObjectVersionState` (object_table.rs, lines 251-270):
`Aborted` absorbs; `Complete` absorbs `Uploading`; `Complete`+`Complete`
merges data; an `Uploading` on the right never changes the left. -/
def ObjectVersionState.merge (s other : ObjectVersionState) : ObjectVersionState :=
  match other with
  | .aborted => .aborted
  | .complete b =>
    match s with
    | .aborted => .aborted
    | .complete a => .complete (a.merge b)
    | .uploading _ _ => .complete b
  | .uploading _ _ => s

/-- `ObjectVersion::cmp_key`: pairs ordered lexicographically. -/
def ObjectVersion.cmp_key (v : ObjectVersion) : Nat × Nat :=
  (v.timestamp, v.uuid)

/-- Lexicographic strict order on `(timestamp, uuid)` pairs (Rust tuple
`Ord`). -/
def keyLt (x y : Nat × Nat) : Bool :=
  decide (x.1 < y.1) || (decide (x.1 = y.1) && decide (x.2 < y.2))

theorem keyLt_irrefl (x : Nat × Nat) : keyLt x x = false := by
  simp [keyLt]

theorem keyLt_asymm {x y : Nat × Nat} (h : keyLt x y = true) :
    keyLt y x = false := by
  simp only [keyLt, Bool.or_eq_true, Bool.and_eq_true, decide_eq_true_eq,
    Bool.or_eq_false_iff, Bool.and_eq_false_iff, decide_eq_false_iff_not] at h ⊢
  omega

theorem keyLt_trans {x y z : Nat × Nat} (h1 : keyLt x y = true)
    (h2 : keyLt y z = true) : keyLt x z = true := by
  simp only [keyLt, Bool.or_eq_true, Bool.and_eq_true, decide_eq_true_eq] at h1 h2 ⊢
  omega

theorem keyLt_total {x y : Nat × Nat} (h1 : keyLt x y = false)
    (h2 : keyLt y x = false) : x = y := by
  obtain ⟨x1, x2⟩ := x; obtain ⟨y1, y2⟩ := y
  simp only [keyLt, Bool.or_eq_false_iff, Bool.and_eq_false_iff,
    decide_eq_false_iff_not] at h1 h2
  obtain ⟨h1a, h1b⟩ := h1
  obtain ⟨h2a, h2b⟩ := h2
  simp only [Prod.mk.injEq]
  rcases h1b with h | h <;> rcases h2b with h' | h' <;> omega

/-- `ObjectVersion::is_complete`. -/
def ObjectVersion.is_complete (v : ObjectVersion) : Bool :=
  match v.state with
  | .complete _ => true
  | _ => false

/-- One step of `impl Crdt for Object::merge` (object_table.rs, lines
326-339): insert `other_v` into the (sorted) version list, merging states
when a version with the same `cmp_key` is already present.  On a sorted
list this linear insertion computes exactly what the source's
`binary_search_by` + `insert`/`state.merge` does. -/
def insertMerge (other_v : ObjectVersion) : List ObjectVersion → List ObjectVersion
  | [] => [other_v]
  | v :: vs =>
    if keyLt other_v.cmp_key v.cmp_key then other_v :: v :: vs
    else if keyLt v.cmp_key other_v.cmp_key then v :: insertMerge other_v vs
    else { v with state := v.state.merge other_v.state } :: vs

/-- The obsolete-version removal step of `Object::merge` (lines 341-353):
remove versions which come before the last version which `is_complete()`.
The head is dropped exactly when a `Complete` version occurs further down
the list, which is the same as `drain(last_vi..)` for the greatest
complete index `last_vi` (and the identity when no version is complete). -/
def dropObsolete : List ObjectVersion → List ObjectVersion
  | [] => []
  | v :: vs => if vs.any ObjectVersion.is_complete then dropObsolete vs else v :: vs

/-- `impl Crdt for Object` (object_table.rs, lines 324-355). -/
def Object.merge (a b : Object) : Object :=
  { a with
    versions :=
      dropObsolete (b.versions.foldl (fun acc ov => insertMerge ov acc) a.versions) }

/-- `Object::add_version`'s insertion into the sorted version list:
`binary_search_by` finds an existing version with the same `cmp_key`
(then `Err(())` is returned and the object is left unchanged) or the
sorted insertion point. -/
def insertVersion (new : ObjectVersion) : List ObjectVersion → Option (List ObjectVersion)
  | [] => some [new]
  | v :: vs =>
    if keyLt new.cmp_key v.cmp_key then some (new :: v :: vs)
    else if keyLt v.cmp_key new.cmp_key then (insertVersion new vs).map (v :: ·)
    else none

/-- `Object::add_version` (lines 232-243); `none` models `Err(())`, in
which case the Rust method leaves `self` unchanged. -/
def Object.add_version (o : Object) (new : ObjectVersion) : Option Object :=
  (insertVersion new o.versions).map (fun l => { o with versions := l })

/-- `Object::new` (lines 217-228): start from an empty version list and
`add_version` each given version; `none` models the `expect` panic on a
duplicate `(timestamp, uuid)`. -/
def Object.new (bucket_id : Nat) (key : String) (versions : List ObjectVersion) :
    Option Object :=
  versions.foldlM (fun o v => o.add_version v)
    { bucket_id := bucket_id, key := key, versions := [] }

/-- Version lists are strictly sorted by `(timestamp, uuid)`. -/
def VersionsSorted (l : List ObjectVersion) : Prop :=
  l.Pairwise (fun a b => keyLt a.cmp_key b.cmp_key = true)

instance : DecidablePred VersionsSorted := by
  intro l
  unfold VersionsSorted
  infer_instance

/-! ### Lemmas on `insertMerge`, `dropObsolete`, `insertVersion` -/

theorem insertMerge_key_mem (ov : ObjectVersion) (l : List ObjectVersion) :
    ∀ w ∈ insertMerge ov l, w.cmp_key = ov.cmp_key ∨ ∃ u ∈ l, w.cmp_key = u.cmp_key := by
  induction l with
  | nil =>
    intro w hw
    simp only [insertMerge, List.mem_singleton] at hw
    exact Or.inl (by rw [hw])
  | cons v vs ih =>
    intro w hw
    simp only [insertMerge] at hw
    split_ifs at hw with h1 h2
    · rcases List.mem_cons.mp hw with h | h
      · exact Or.inl (by rw [h])
      · exact Or.inr ⟨w, h, rfl⟩
    · rcases List.mem_cons.mp hw with h | h
      · exact Or.inr ⟨v, List.mem_cons_self .., by rw [h]⟩
      · rcases ih w h with h' | ⟨u, hu, h'⟩
        · exact Or.inl h'
        · exact Or.inr ⟨u, List.mem_cons_of_mem _ hu, h'⟩
    · rcases List.mem_cons.mp hw with h | h
      · exact Or.inr ⟨v, List.mem_cons_self .., by rw [h]; rfl⟩
      · exact Or.inr ⟨w, List.mem_cons_of_mem _ h, rfl⟩

theorem insertMerge_sorted (ov : ObjectVersion) {l : List ObjectVersion}
    (h : VersionsSorted l) : VersionsSorted (insertMerge ov l) := by
  induction l with
  | nil => simp [insertMerge, VersionsSorted]
  | cons v vs ih =>
    rcases List.pairwise_cons.mp h with ⟨hv, hvs⟩
    simp only [insertMerge]
    split_ifs with h1 h2
    · refine List.pairwise_cons.mpr ⟨?_, h⟩
      intro w hw
      rcases List.mem_cons.mp hw with h' | h'
      · rw [h']; exact h1
      · exact keyLt_trans h1 (hv w h')
    · refine List.pairwise_cons.mpr ⟨?_, ih hvs⟩
      intro w hw
      rcases insertMerge_key_mem ov vs w hw with h' | ⟨u, hu, h'⟩
      · rw [h']; exact h2
      · rw [h']; exact hv u hu
    · exact List.pairwise_cons.mpr ⟨fun w hw => hv w hw, hvs⟩

theorem foldl_insertMerge_sorted (bs : List ObjectVersion)
    {acc : List ObjectVersion} (h : VersionsSorted acc) :
    VersionsSorted (bs.foldl (fun acc ov => insertMerge ov acc) acc) := by
  induction bs generalizing acc with
  | nil => exact h
  | cons b bs ih => exact ih (insertMerge_sorted b h)

theorem dropObsolete_sublist (l : List ObjectVersion) :
    (dropObsolete l).Sublist l := by
  induction l with
  | nil => simp [dropObsolete]
  | cons v vs ih =>
    simp only [dropObsolete]
    split_ifs with h
    · exact ih.trans (List.sublist_cons_self _ _)
    · exact List.Sublist.refl _

theorem dropObsolete_sorted {l : List ObjectVersion} (h : VersionsSorted l) :
    VersionsSorted (dropObsolete l) :=
  h.sublist (dropObsolete_sublist l)

theorem dropObsolete_mem_iff {l : List ObjectVersion} (hs : VersionsSorted l)
    (v : ObjectVersion) :
    v ∈ dropObsolete l ↔
      v ∈ l ∧ ∀ c ∈ l, c.is_complete = true → keyLt v.cmp_key c.cmp_key = false := by
  induction l with
  | nil => simp [dropObsolete]
  | cons v0 vs ih =>
    rcases List.pairwise_cons.mp hs with ⟨hv0, hvs⟩
    simp only [dropObsolete]
    split_ifs with hany
    · rw [ih hvs]
      constructor
      · rintro ⟨hm, hP⟩
        refine ⟨List.mem_cons_of_mem _ hm, ?_⟩
        intro c hc hcomp
        rcases List.mem_cons.mp hc with h | h
        · rw [h]; exact keyLt_asymm (hv0 v hm)
        · exact hP c h hcomp
      · rintro ⟨hm, hP⟩
        rcases List.mem_cons.mp hm with h | h
        · exfalso
          rcases List.any_eq_true.mp hany with ⟨c0, hc0, hc0comp⟩
          have := hP c0 (List.mem_cons_of_mem _ hc0) hc0comp
          rw [h] at this
          rw [hv0 c0 hc0] at this
          cases this
        · exact ⟨h, fun c hc hcomp => hP c (List.mem_cons_of_mem _ hc) hcomp⟩
    · constructor
      · intro hm
        refine ⟨hm, ?_⟩
        intro c hc hcomp
        rcases List.mem_cons.mp hc with h | h
        · subst h
          rcases List.mem_cons.mp hm with h' | h'
          · rw [h']; exact keyLt_irrefl _
          · exact keyLt_asymm (hv0 v h')
        · exfalso
          have hany' : vs.any ObjectVersion.is_complete = false :=
            Bool.eq_false_iff.mpr hany
          exact absurd hcomp (List.any_eq_false.mp hany' c h)
      · rintro ⟨hm, _⟩
        exact hm

theorem insertVersion_mem {new : ObjectVersion} {l l' : List ObjectVersion}
    (h : insertVersion new l = some l') : ∀ w ∈ l', w = new ∨ w ∈ l := by
  induction l generalizing l' with
  | nil =>
    simp only [insertVersion, Option.some.injEq] at h
    subst h
    intro w hw
    exact Or.inl (List.mem_singleton.mp hw)
  | cons v vs ih =>
    simp only [insertVersion] at h
    split_ifs at h with h1 h2
    · rcases h
      intro w hw
      rcases List.mem_cons.mp hw with h' | h'
      · exact Or.inl h'
      · exact Or.inr h'
    · rcases ho : insertVersion new vs with _ | l''
      · rw [ho] at h; cases h
      · rw [ho] at h
        simp only [Option.map_some', Option.some.injEq] at h
        subst h
        intro w hw
        rcases List.mem_cons.mp hw with h' | h'
        · exact Or.inr (by rw [h']; exact List.mem_cons_self ..)
        · rcases ih ho w h' with h'' | h''
          · exact Or.inl h''
          · exact Or.inr (List.mem_cons_of_mem _ h'')

theorem insertVersion_sorted {new : ObjectVersion} {l l' : List ObjectVersion}
    (hs : VersionsSorted l) (h : insertVersion new l = some l') :
    VersionsSorted l' := by
  induction l generalizing l' with
  | nil =>
    simp only [insertVersion, Option.some.injEq] at h
    subst h
    simp [VersionsSorted]
  | cons v vs ih =>
    rcases List.pairwise_cons.mp hs with ⟨hv, hvs⟩
    simp only [insertVersion] at h
    split_ifs at h with h1 h2
    · rcases h
      refine List.pairwise_cons.mpr ⟨?_, hs⟩
      intro w hw
      rcases List.mem_cons.mp hw with h' | h'
      · rw [h']; exact h1
      · exact keyLt_trans h1 (hv w h')
    · rcases ho : insertVersion new vs with _ | l''
      · rw [ho] at h; cases h
      · rw [ho] at h
        simp only [Option.map_some', Option.some.injEq] at h
        subst h
        refine List.pairwise_cons.mpr ⟨?_, ih hvs ho⟩
        intro w hw
        rcases insertVersion_mem ho w hw with h' | h'
        · rw [h']; exact h2
        · exact hv w h'

theorem insertVersion_none_of_dup {new w : ObjectVersion} {l : List ObjectVersion}
    (hs : VersionsSorted l) (hw : w ∈ l) (hk : w.cmp_key = new.cmp_key) :
    insertVersion new l = none := by
  induction l with
  | nil => cases hw
  | cons v vs ih =>
    rcases List.pairwise_cons.mp hs with ⟨hv, hvs⟩
    simp only [insertVersion]
    rcases List.mem_cons.mp hw with h | h
    · subst h
      rw [← hk, keyLt_irrefl]
      simp
    · have hlt : keyLt v.cmp_key new.cmp_key = true := by
        rw [← hk]; exact hv w h
      rw [keyLt_asymm hlt, hlt]
      simp [ih hvs h]

theorem add_version_sorted {o o' : Object} {v : ObjectVersion}
    (hs : VersionsSorted o.versions) (h : o.add_version v = some o') :
    VersionsSorted o'.versions := by
  unfold Object.add_version at h
  rcases ho : insertVersion v o.versions with _ | l'
  · rw [ho] at h; cases h
  · rw [ho] at h
    simp only [Option.map_some', Option.some.injEq] at h
    subst h
    exact insertVersion_sorted hs ho

theorem foldlM_add_version_sorted (vs : List ObjectVersion) :
    ∀ (o : Object), VersionsSorted o.versions →
    ∀ {o' : Object}, vs.foldlM (fun o v => o.add_version v) o = some o' →
    VersionsSorted o'.versions := by
  induction vs with
  | nil =>
    intro o h o' hfold
    simp only [List.foldlM_nil] at hfold
    cases hfold
    exact h
  | cons v vs ih =>
    intro o h o' hfold
    simp only [List.foldlM_cons] at hfold
    rcases ha : o.add_version v with _ | o1
    · rw [ha] at hfold; cases hfold
    · rw [ha] at hfold
      exact ih o1 (add_version_sorted h ha) hfold

/-! ### Sample objects used in witnesses and counterexamples -/

def hdr0 : ObjectVersionHeaders := { content_type := "text/plain", other := [] }

def hdr1 : ObjectVersionHeaders := { content_type := "image/png", other := [] }

/-- Uploading version with key `(0, 0)`. -/
def vUpl : ObjectVersion := { uuid := 0, timestamp := 0, state := .uploading false hdr0 }

/-- Complete (delete-marker) version with key `(1, 1)`. -/
def vCompl : ObjectVersion := { uuid := 1, timestamp := 1, state := .complete .deleteMarker }

/-- Aborted version with key `(1, 1)`. -/
def vAbort : ObjectVersion := { uuid := 1, timestamp := 1, state := .aborted }

def objUC : Object := { bucket_id := 0, key := "k", versions := [vUpl, vCompl] }

def objC : Object := { bucket_id := 0, key := "k", versions := [vCompl] }

def objU : Object := { bucket_id := 0, key := "k", versions := [vUpl] }

def objA : Object := { bucket_id := 0, key := "k", versions := [vAbort] }

/-- C2: merging two Object rows with the same bucket and key yields the
version list obtained by inserting/state-merging all versions of both
rows, from which exactly those versions that strictly precede (in
`(timestamp, uuid)` order) some Complete version of the merged list are
removed; equivalently, a version is kept iff it does not strictly precede
the last Complete version, and when no version is Complete nothing is
removed. -/
theorem object_merge_drops_versions_before_last_complete
    (a b : Object) (hrow : a.bucket_id = b.bucket_id ∧ a.key = b.key)
    (ha : VersionsSorted a.versions) (hb : VersionsSorted b.versions)
    (v : ObjectVersion) :
    v ∈ (Object.merge a b).versions ↔
      (v ∈ b.versions.foldl (fun acc ov => insertMerge ov acc) a.versions ∧
       ∀ c ∈ b.versions.foldl (fun acc ov => insertMerge ov acc) a.versions,
         c.is_complete = true → keyLt v.cmp_key c.cmp_key = false) := by
  have hu : VersionsSorted
      (b.versions.foldl (fun acc ov => insertMerge ov acc) a.versions) :=
    foldl_insertMerge_sorted _ ha
  simpa [Object.merge] using dropObsolete_mem_iff hu v

/-- Witness for C2: in merging a row holding a Complete version at key
`(1,1)` with a row holding an Uploading version at key `(0,0)`, the older
Uploading version is dropped. -/
theorem object_merge_drops_versions_before_last_complete_witness :
    vUpl ∈ (Object.merge objC objU).versions ↔
      (vUpl ∈ objU.versions.foldl (fun acc ov => insertMerge ov acc) objC.versions ∧
       ∀ c ∈ objU.versions.foldl (fun acc ov => insertMerge ov acc) objC.versions,
         c.is_complete = true → keyLt vUpl.cmp_key c.cmp_key = false) :=
  object_merge_drops_versions_before_last_complete objC objU ⟨rfl, rfl⟩
    (by decide) (by decide) vUpl

/-- C10: objects produced by `Object::new`, by a successful
`add_version`, or by `Crdt::merge` from sorted inputs have their version
lists strictly sorted by `(timestamp, uuid)` (hence no two versions share
that pair), and `add_version` of a version whose `(timestamp, uuid)` is
already present returns `Err` (modelled `none`; the Rust method then
leaves the object unchanged). -/
theorem object_version_list_invariant :
    (∀ (bucket_id : Nat) (key : String) (vs : List ObjectVersion) (o : Object),
        Object.new bucket_id key vs = some o → VersionsSorted o.versions) ∧
    (∀ (o o' : Object) (v : ObjectVersion), VersionsSorted o.versions →
        o.add_version v = some o' → VersionsSorted o'.versions) ∧
    (∀ (o : Object) (v w : ObjectVersion), VersionsSorted o.versions →
        w ∈ o.versions → w.cmp_key = v.cmp_key → o.add_version v = none) ∧
    (∀ (a b : Object), VersionsSorted a.versions → VersionsSorted b.versions →
        VersionsSorted (Object.merge a b).versions) := by
  refine ⟨?_, ?_, ?_, ?_⟩
  · intro bucket_id key vs o h
    exact foldlM_add_version_sorted vs _ (by simp [VersionsSorted]) h
  · intro o o' v hs h
    exact add_version_sorted hs h
  · intro o v w hs hw hk
    unfold Object.add_version
    rw [insertVersion_none_of_dup hs hw hk]
    rfl
  · intro a b ha hb
    exact dropObsolete_sorted (foldl_insertMerge_sorted _ ha)

/-- Witness for C10 at concrete inputs. -/
theorem object_version_list_invariant_witness :
    VersionsSorted objUC.versions ∧
    (objC.add_version vCompl = none) ∧
    VersionsSorted (Object.merge objC objU).versions := by
  refine ⟨?_, ?_, ?_⟩
  · exact object_version_list_invariant.1 0 "k" [vUpl, vCompl] objUC (by decide)
  · exact object_version_list_invariant.2.2.1 objC vCompl vCompl (by decide)
      (by decide) rfl
  · exact object_version_list_invariant.2.2.2 objC objU (by decide) (by decide)

/-! ### CRDT primitives for the key table (`src/model/key_table.rs`)

The generic CRDT containers (`Lww`, `LwwMap`, `Map`, `Deletable`) and
`BucketKeyPerm` live in `garage_util::crdt` / `model/permission.rs`,
which are not part of the repository snapshot.  They are modelled from
the spec (§3, "CRDT merges that matter"): `Lww<T>` is a
timestamped value whose merge keeps the larger timestamp and on a
timestamp tie falls back to the inner `AutoCrdt` merge (larger value);
`LwwMap`/`Map` merge per key; `Deletable`'s `Deleted` absorbs
`Present`; permissions carry a timestamp, newer wins, a tie restricts to
the conjunction of the flags.  Maps are sorted association lists. -/

/-- Timestamped last-writer-wins merge with a tie-combining function. -/
def lwwCombine {V : Type} (comb : V → V → V) (a b : Nat × V) : Nat × V :=
  if a.1 < b.1 then b else if b.1 < a.1 then a else (a.1, comb a.2 b.2)

theorem lwwCombine_idem {V : Type} (comb : V → V → V)
    (hcomb : ∀ x, comb x x = x) (a : Nat × V) : lwwCombine comb a a = a := by
  obtain ⟨t, v⟩ := a
  simp [lwwCombine, hcomb]

theorem lwwCombine_comm {V : Type} (comb : V → V → V)
    (hcomb : ∀ x y, comb x y = comb y x) (a b : Nat × V) :
    lwwCombine comb a b = lwwCombine comb b a := by
  obtain ⟨ta, va⟩ := a; obtain ⟨tb, vb⟩ := b
  rcases lt_trichotomy ta tb with h | h | h
  · simp [lwwCombine, h, lt_asymm h]
  · subst h
    simp [lwwCombine, hcomb va vb]
  · simp [lwwCombine, h, lt_asymm h]

theorem lwwCombine_assoc {V : Type} (comb : V → V → V)
    (hcomb : ∀ x y z, comb (comb x y) z = comb x (comb y z))
    (a b c : Nat × V) :
    lwwCombine comb (lwwCombine comb a b) c
      = lwwCombine comb a (lwwCombine comb b c) := by
  obtain ⟨ta, va⟩ := a; obtain ⟨tb, vb⟩ := b; obtain ⟨tc, vc⟩ := c
  rcases lt_trichotomy ta tb with h1 | h1 | h1 <;>
    rcases lt_trichotomy tb tc with h2 | h2 | h2
  · simp [lwwCombine, h1, h2, lt_asymm, lt_trans h1 h2]
  · subst h2; simp [lwwCombine, h1, lt_asymm h1]
  · simp [lwwCombine, h1, h2, lt_asymm]
  · subst h1; simp [lwwCombine, h2, lt_asymm h2, lt_irrefl]
  · subst h1; subst h2; simp [lwwCombine, lt_irrefl, hcomb]
  · subst h1; simp [lwwCombine, h2, lt_asymm h2, lt_irrefl]
  · rcases lt_trichotomy ta tc with h3 | h3 | h3 <;>
      simp [lwwCombine, h1, h2, h3, lt_asymm, lt_irrefl]
  · subst h2; simp [lwwCombine, h1, lt_asymm h1, lt_irrefl]
  · simp [lwwCombine, h1, h2, lt_asymm, lt_trans h2 h1]

/-- Per-key merge of two sorted association maps (`LwwMap`/`Map` merge,
modelled from the spec; on sorted maps the source's per-entry
binary-search insertion computes the same result). -/
def mergeAL {K V : Type} [LinearOrder K] (f : V → V → V) :
    List (K × V) → List (K × V) → List (K × V)
  | [], ys => ys
  | xs, [] => xs
  | (k1, v1) :: xs, (k2, v2) :: ys =>
    if k1 < k2 then (k1, v1) :: mergeAL f xs ((k2, v2) :: ys)
    else if k2 < k1 then (k2, v2) :: mergeAL f ((k1, v1) :: xs) ys
    else (k1, f v1 v2) :: mergeAL f xs ys
termination_by xs ys => xs.length + ys.length

theorem mergeAL_nil_left {K V : Type} [LinearOrder K] (f : V → V → V)
    (ys : List (K × V)) : mergeAL f [] ys = ys := by
  cases ys <;> simp [mergeAL]

theorem mergeAL_nil_right {K V : Type} [LinearOrder K] (f : V → V → V)
    (xs : List (K × V)) : mergeAL f xs [] = xs := by
  cases xs <;> simp [mergeAL]

theorem mergeAL_cons_cons {K V : Type} [LinearOrder K] (f : V → V → V)
    (k1 k2 : K) (v1 v2 : V) (xs ys : List (K × V)) :
    mergeAL f ((k1, v1) :: xs) ((k2, v2) :: ys) =
      if k1 < k2 then (k1, v1) :: mergeAL f xs ((k2, v2) :: ys)
      else if k2 < k1 then (k2, v2) :: mergeAL f ((k1, v1) :: xs) ys
      else (k1, f v1 v2) :: mergeAL f xs ys := by
  simp [mergeAL]

theorem mergeAL_idem {K V : Type} [LinearOrder K] (f : V → V → V)
    (hf : ∀ v, f v v = v) (xs : List (K × V)) : mergeAL f xs xs = xs := by
  induction xs with
  | nil => rw [mergeAL_nil_left]
  | cons x xs ih =>
    obtain ⟨k, v⟩ := x
    rw [mergeAL_cons_cons, if_neg (lt_irrefl k), if_neg (lt_irrefl k), hf, ih]

theorem mergeAL_comm_aux {K V : Type} [LinearOrder K] (f : V → V → V)
    (hf : ∀ x y, f x y = f y x) :
    ∀ (n : Nat) (xs ys : List (K × V)), xs.length + ys.length ≤ n →
      mergeAL f xs ys = mergeAL f ys xs := by
  intro n
  induction n with
  | zero =>
    intro xs ys h
    have hx : xs = [] := List.eq_nil_of_length_eq_zero (by omega)
    have hy : ys = [] := List.eq_nil_of_length_eq_zero (by omega)
    subst hx; subst hy; rfl
  | succ n ih =>
    intro xs ys h
    cases xs with
    | nil => rw [mergeAL_nil_left, mergeAL_nil_right]
    | cons x xs =>
      cases ys with
      | nil => rw [mergeAL_nil_left, mergeAL_nil_right]
      | cons y ys =>
        obtain ⟨k1, v1⟩ := x; obtain ⟨k2, v2⟩ := y
        simp only [List.length_cons] at h
        rw [mergeAL_cons_cons, mergeAL_cons_cons]
        rcases lt_trichotomy k1 k2 with hk | hk | hk
        · rw [if_pos hk, if_neg (lt_asymm hk), if_pos hk,
            ih xs ((k2, v2) :: ys) (by simp only [List.length_cons]; omega)]
        · subst hk
          rw [if_neg (lt_irrefl k1), if_neg (lt_irrefl k1),
            if_neg (lt_irrefl k1), if_neg (lt_irrefl k1), hf v1 v2,
            ih xs ys (by omega)]
        · rw [if_neg (lt_asymm hk), if_pos hk, if_pos hk,
            ih ((k1, v1) :: xs) ys (by simp only [List.length_cons]; omega)]

theorem mergeAL_comm {K V : Type} [LinearOrder K] (f : V → V → V)
    (hf : ∀ x y, f x y = f y x) (xs ys : List (K × V)) :
    mergeAL f xs ys = mergeAL f ys xs :=
  mergeAL_comm_aux f hf (xs.length + ys.length) xs ys le_rfl

theorem mergeAL_assoc_aux {K V : Type} [LinearOrder K] (f : V → V → V)
    (hf : ∀ x y z, f (f x y) z = f x (f y z)) :
    ∀ (n : Nat) (xs ys zs : List (K × V)),
      xs.length + ys.length + zs.length ≤ n →
      mergeAL f (mergeAL f xs ys) zs = mergeAL f xs (mergeAL f ys zs) := by
  intro n
  induction n with
  | zero =>
    intro xs ys zs h
    have hx : xs = [] := List.eq_nil_of_length_eq_zero (by omega)
    have hy : ys = [] := List.eq_nil_of_length_eq_zero (by omega)
    have hz : zs = [] := List.eq_nil_of_length_eq_zero (by omega)
    subst hx; subst hy; subst hz
    simp [mergeAL_nil_left]
  | succ n ih =>
    intro xs ys zs h
    cases xs with
    | nil => rw [mergeAL_nil_left, mergeAL_nil_left]
    | cons a xs =>
    cases ys with
    | nil => rw [mergeAL_nil_right, mergeAL_nil_left]
    | cons b ys =>
    cases zs with
    | nil => rw [mergeAL_nil_right, mergeAL_nil_right]
    | cons c zs =>
    obtain ⟨k1, v1⟩ := a; obtain ⟨k2, v2⟩ := b; obtain ⟨k3, v3⟩ := c
    simp only [List.length_cons] at h
    rcases lt_trichotomy k1 k2 with hk12 | hk12 | hk12
    · -- k1 < k2 : first merge starts with (k1, v1)
      have e1 : mergeAL f ((k1, v1) :: xs) ((k2, v2) :: ys)
          = (k1, v1) :: mergeAL f xs ((k2, v2) :: ys) := by
        rw [mergeAL_cons_cons, if_pos hk12]
      rcases lt_trichotomy k2 k3 with hk23 | hk23 | hk23
      · -- k2 < k3, so k1 < k3
        have hk13 : k1 < k3 := lt_trans hk12 hk23
        have e2 : mergeAL f ((k2, v2) :: ys) ((k3, v3) :: zs)
            = (k2, v2) :: mergeAL f ys ((k3, v3) :: zs) := by
          rw [mergeAL_cons_cons, if_pos hk23]
        rw [e1, e2, mergeAL_cons_cons, if_pos hk13, mergeAL_cons_cons, if_pos hk12,
          ih xs ((k2, v2) :: ys) ((k3, v3) :: zs)
            (by simp only [List.length_cons]; omega),
          e2]
      · -- k2 = k3
        subst hk23
        have hk13 : k1 < k2 := hk12
        have e2 : mergeAL f ((k2, v2) :: ys) ((k2, v3) :: zs)
            = (k2, f v2 v3) :: mergeAL f ys zs := by
          rw [mergeAL_cons_cons, if_neg (lt_irrefl k2), if_neg (lt_irrefl k2)]
        rw [e1, e2, mergeAL_cons_cons, if_pos hk13, mergeAL_cons_cons, if_pos hk12,
          ih xs ((k2, v2) :: ys) ((k2, v3) :: zs)
            (by simp only [List.length_cons]; omega),
          e2]
      · -- k3 < k2
        have e2 : mergeAL f ((k2, v2) :: ys) ((k3, v3) :: zs)
            = (k3, v3) :: mergeAL f ((k2, v2) :: ys) zs := by
          rw [mergeAL_cons_cons, if_neg (lt_asymm hk23), if_pos hk23]
        rcases lt_trichotomy k1 k3 with hk13 | hk13 | hk13
        · rw [e1, e2, mergeAL_cons_cons, if_pos hk13, mergeAL_cons_cons, if_pos hk13,
            ih xs ((k2, v2) :: ys) ((k3, v3) :: zs)
              (by simp only [List.length_cons]; omega),
            e2]
        · subst hk13
          rw [e1, e2, mergeAL_cons_cons, if_neg (lt_irrefl k1),
            if_neg (lt_irrefl k1), mergeAL_cons_cons, if_neg (lt_irrefl k1),
            if_neg (lt_irrefl k1),
            ih xs ((k2, v2) :: ys) zs (by simp only [List.length_cons]; omega)]
        · have e3 : mergeAL f ((k1, v1) :: mergeAL f xs ((k2, v2) :: ys)) ((k3, v3) :: zs)
              = (k3, v3) :: mergeAL f ((k1, v1) :: mergeAL f xs ((k2, v2) :: ys)) zs := by
            rw [mergeAL_cons_cons, if_neg (lt_asymm hk13), if_pos hk13]
          have e4 : mergeAL f ((k1, v1) :: xs) ((k3, v3) :: mergeAL f ((k2, v2) :: ys) zs)
              = (k3, v3) :: mergeAL f ((k1, v1) :: xs) (mergeAL f ((k2, v2) :: ys) zs) := by
            rw [mergeAL_cons_cons, if_neg (lt_asymm hk13), if_pos hk13]
          rw [e1, e2, e3, e4, ← e1,
            ih ((k1, v1) :: xs) ((k2, v2) :: ys) zs
              (by simp only [List.length_cons]; omega)]
    · -- k1 = k2
      subst hk12
      have e1 : mergeAL f ((k1, v1) :: xs) ((k1, v2) :: ys)
          = (k1, f v1 v2) :: mergeAL f xs ys := by
        rw [mergeAL_cons_cons, if_neg (lt_irrefl k1), if_neg (lt_irrefl k1)]
      rcases lt_trichotomy k1 k3 with hk13 | hk13 | hk13
      · -- k1 = k2 < k3
        have e2 : mergeAL f ((k1, v2) :: ys) ((k3, v3) :: zs)
            = (k1, v2) :: mergeAL f ys ((k3, v3) :: zs) := by
          rw [mergeAL_cons_cons, if_pos hk13]
        rw [e1, e2, mergeAL_cons_cons, if_pos hk13, mergeAL_cons_cons,
          if_neg (lt_irrefl k1), if_neg (lt_irrefl k1),
          ih xs ys ((k3, v3) :: zs) (by simp only [List.length_cons]; omega)]
      · -- k1 = k2 = k3
        subst hk13
        have e2 : mergeAL f ((k1, v2) :: ys) ((k1, v3) :: zs)
            = (k1, f v2 v3) :: mergeAL f ys zs := by
          rw [mergeAL_cons_cons, if_neg (lt_irrefl k1), if_neg (lt_irrefl k1)]
        rw [e1, e2, mergeAL_cons_cons, if_neg (lt_irrefl k1), if_neg (lt_irrefl k1),
          mergeAL_cons_cons, if_neg (lt_irrefl k1), if_neg (lt_irrefl k1),
          hf v1 v2 v3, ih xs ys zs (by omega)]
      · -- k3 < k1 = k2
        have e2 : mergeAL f ((k1, v2) :: ys) ((k3, v3) :: zs)
            = (k3, v3) :: mergeAL f ((k1, v2) :: ys) zs := by
          rw [mergeAL_cons_cons, if_neg (lt_asymm hk13), if_pos hk13]
        have e3 : mergeAL f ((k1, f v1 v2) :: mergeAL f xs ys) ((k3, v3) :: zs)
            = (k3, v3) :: mergeAL f ((k1, f v1 v2) :: mergeAL f xs ys) zs := by
          rw [mergeAL_cons_cons, if_neg (lt_asymm hk13), if_pos hk13]
        have e4 : mergeAL f ((k1, v1) :: xs) ((k3, v3) :: mergeAL f ((k1, v2) :: ys) zs)
            = (k3, v3) :: mergeAL f ((k1, v1) :: xs) (mergeAL f ((k1, v2) :: ys) zs) := by
          rw [mergeAL_cons_cons, if_neg (lt_asymm hk13), if_pos hk13]
        rw [e1, e2, e3, e4, ← e1,
          ih ((k1, v1) :: xs) ((k1, v2) :: ys) zs
            (by simp only [List.length_cons]; omega)]
    · -- k2 < k1 : first merge starts with (k2, v2)
      have e1 : mergeAL f ((k1, v1) :: xs) ((k2, v2) :: ys)
          = (k2, v2) :: mergeAL f ((k1, v1) :: xs) ys := by
        rw [mergeAL_cons_cons, if_neg (lt_asymm hk12), if_pos hk12]
      rcases lt_trichotomy k2 k3 with hk23 | hk23 | hk23
      · -- k2 < k3
        have e2 : mergeAL f ((k2, v2) :: ys) ((k3, v3) :: zs)
            = (k2, v2) :: mergeAL f ys ((k3, v3) :: zs) := by
          rw [mergeAL_cons_cons, if_pos hk23]
        rw [e1, e2, mergeAL_cons_cons, if_pos hk23, mergeAL_cons_cons,
          if_neg (lt_asymm hk12), if_pos hk12,
          ih ((k1, v1) :: xs) ys ((k3, v3) :: zs)
            (by simp only [List.length_cons]; omega)]
      · -- k2 = k3
        subst hk23
        have e2 : mergeAL f ((k2, v2) :: ys) ((k2, v3) :: zs)
            = (k2, f v2 v3) :: mergeAL f ys zs := by
          rw [mergeAL_cons_cons, if_neg (lt_irrefl k2), if_neg (lt_irrefl k2)]
        rw [e1, e2, mergeAL_cons_cons, if_neg (lt_irrefl k2), if_neg (lt_irrefl k2),
          mergeAL_cons_cons, if_neg (lt_asymm hk12), if_pos hk12,
          ih ((k1, v1) :: xs) ys zs (by simp only [List.length_cons]; omega)]
      · -- k3 < k2 < k1
        have hk13 : k3 < k1 := lt_trans hk23 hk12
        have e2 : mergeAL f ((k2, v2) :: ys) ((k3, v3) :: zs)
            = (k3, v3) :: mergeAL f ((k2, v2) :: ys) zs := by
          rw [mergeAL_cons_cons, if_neg (lt_asymm hk23), if_pos hk23]
        have e3 : mergeAL f ((k2, v2) :: mergeAL f ((k1, v1) :: xs) ys) ((k3, v3) :: zs)
            = (k3, v3) :: mergeAL f ((k2, v2) :: mergeAL f ((k1, v1) :: xs) ys) zs := by
          rw [mergeAL_cons_cons, if_neg (lt_asymm hk23), if_pos hk23]
        have e4 : mergeAL f ((k1, v1) :: xs) ((k3, v3) :: mergeAL f ((k2, v2) :: ys) zs)
            = (k3, v3) :: mergeAL f ((k1, v1) :: xs) (mergeAL f ((k2, v2) :: ys) zs) := by
          rw [mergeAL_cons_cons, if_neg (lt_asymm hk13), if_pos hk13]
        rw [e1, e2, e3, e4, ← e1,
          ih ((k1, v1) :: xs) ((k2, v2) :: ys) zs
            (by simp only [List.length_cons]; omega)]

theorem mergeAL_assoc {K V : Type} [LinearOrder K] (f : V → V → V)
    (hf : ∀ x y z, f (f x y) z = f x (f y z)) (xs ys zs : List (K × V)) :
    mergeAL f (mergeAL f xs ys) zs = mergeAL f xs (mergeAL f ys zs) :=
  mergeAL_assoc_aux f hf (xs.length + ys.length + zs.length) xs ys zs le_rfl

/-- Permission given to a key in a bucket (`BucketKeyPerm`,
`model/permission.rs`, not in the snapshot; modelled from the spec:
timestamped permission flags, newer timestamp wins, a tie restricts to
the conjunction of the flags). -/
structure BucketKeyPerm where
  timestamp : Nat
  allow_read : Bool
  allow_write : Bool
  allow_owner : Bool
deriving DecidableEq, Repr

def BucketKeyPerm.merge (a b : BucketKeyPerm) : BucketKeyPerm :=
  if a.timestamp < b.timestamp then b
  else if b.timestamp < a.timestamp then a
  else { timestamp := a.timestamp,
         allow_read := a.allow_read && b.allow_read,
         allow_write := a.allow_write && b.allow_write,
         allow_owner := a.allow_owner && b.allow_owner }

def permFlagsAnd (x y : Bool × Bool × Bool) : Bool × Bool × Bool :=
  (x.1 && y.1, x.2.1 && y.2.1, x.2.2 && y.2.2)

def BucketKeyPerm.enc (p : BucketKeyPerm) : Nat × Bool × Bool × Bool :=
  (p.timestamp, p.allow_read, p.allow_write, p.allow_owner)

theorem perm_enc_inj {a b : BucketKeyPerm} (h : a.enc = b.enc) : a = b := by
  cases a; cases b
  simp_all [BucketKeyPerm.enc, Prod.ext_iff]

theorem perm_merge_enc (a b : BucketKeyPerm) :
    (a.merge b).enc = lwwCombine permFlagsAnd a.enc b.enc := by
  cases a; cases b
  unfold BucketKeyPerm.merge lwwCombine BucketKeyPerm.enc permFlagsAnd
  split_ifs <;> rfl

theorem permFlagsAnd_assoc (x y z : Bool × Bool × Bool) :
    permFlagsAnd (permFlagsAnd x y) z = permFlagsAnd x (permFlagsAnd y z) := by
  simp [permFlagsAnd, Bool.and_assoc]

theorem perm_merge_assoc (a b c : BucketKeyPerm) :
    BucketKeyPerm.merge (BucketKeyPerm.merge a b) c
      = BucketKeyPerm.merge a (BucketKeyPerm.merge b c) := by
  apply perm_enc_inj
  rw [perm_merge_enc, perm_merge_enc, perm_merge_enc, perm_merge_enc,
    lwwCombine_assoc permFlagsAnd permFlagsAnd_assoc]

theorem perm_merge_comm (a b : BucketKeyPerm) :
    BucketKeyPerm.merge a b = BucketKeyPerm.merge b a := by
  apply perm_enc_inj
  rw [perm_merge_enc, perm_merge_enc,
    lwwCombine_comm permFlagsAnd (by simp [permFlagsAnd, Bool.and_comm])]

theorem perm_merge_idem (a : BucketKeyPerm) : BucketKeyPerm.merge a a = a := by
  apply perm_enc_inj
  rw [perm_merge_enc, lwwCombine_idem permFlagsAnd (by simp [permFlagsAnd])]

/-- `Deletable<T>` (modelled from the spec: `Deleted` absorbs `Present`;
two `Present` states merge the inner value). -/
inductive Deletable (T : Type) where
  | deleted
  | present (v : T)
deriving DecidableEq, Repr

def Deletable.merge {T : Type} (m : T → T → T) :
    Deletable T → Deletable T → Deletable T
  | .deleted, _ => .deleted
  | .present _, .deleted => .deleted
  | .present a, .present b => .present (m a b)

/-- Configuration for a key (`KeyParams`, key_table.rs v08). `Lww<T>` is
a `(timestamp, value)` pair, `Map`/`LwwMap` are sorted association
lists. -/
structure KeyParams where
  secret_key : String
  name : Nat × String
  allow_create_bucket : Nat × Bool
  authorized_buckets : List (Nat × BucketKeyPerm)
  local_aliases : List (String × (Nat × Option Nat))
deriving DecidableEq, Repr

/-- `impl Crdt for KeyParams` (key_table.rs, lines 131-138): merge
`name`, `allow_create_bucket`, `authorized_buckets` and `local_aliases`;
`secret_key` is immutable and not merged. -/
def KeyParams.merge (a b : KeyParams) : KeyParams :=
  { secret_key := a.secret_key,
    name := lwwCombine (mergeOfCmp cmpOfLE) a.name b.name,
    allow_create_bucket :=
      lwwCombine (mergeOfCmp cmpOfLE) a.allow_create_bucket b.allow_create_bucket,
    authorized_buckets :=
      mergeAL BucketKeyPerm.merge a.authorized_buckets b.authorized_buckets,
    local_aliases :=
      mergeAL (lwwCombine (mergeOfCmp (cmpOption cmpOfLE)))
        a.local_aliases b.local_aliases }

/-- An api key (`Key`, key_table.rs v08). -/
structure Key where
  key_id : String
  state : Deletable KeyParams
deriving DecidableEq, Repr

/-- `impl Crdt for Key` (key_table.rs, lines 223-227): merge the state. -/
def Key.merge (a b : Key) : Key :=
  { a with state := a.state.merge KeyParams.merge b.state }

theorem keyparams_merge_assoc (a b c : KeyParams) :
    KeyParams.merge (KeyParams.merge a b) c
      = KeyParams.merge a (KeyParams.merge b c) := by
  unfold KeyParams.merge
  simp only [KeyParams.mk.injEq]
  refine ⟨trivial, ?_, ?_, ?_, ?_⟩
  · exact lwwCombine_assoc _
      (fun x y z => mergeOfCmp_assoc isLawfulCmp_cmpOfLE x y z) _ _ _
  · exact lwwCombine_assoc _
      (fun x y z => mergeOfCmp_assoc isLawfulCmp_cmpOfLE x y z) _ _ _
  · exact mergeAL_assoc _ perm_merge_assoc _ _ _
  · exact mergeAL_assoc _
      (fun x y z => lwwCombine_assoc _
        (fun u v w =>
          mergeOfCmp_assoc (isLawfulCmp_cmpOption isLawfulCmp_cmpOfLE) u v w)
        x y z) _ _ _

theorem keyparams_merge_comm (a b : KeyParams)
    (hsec : a.secret_key = b.secret_key) :
    KeyParams.merge a b = KeyParams.merge b a := by
  unfold KeyParams.merge
  simp only [KeyParams.mk.injEq]
  refine ⟨hsec, ?_, ?_, ?_, ?_⟩
  · exact lwwCombine_comm _
      (fun x y => mergeOfCmp_comm isLawfulCmp_cmpOfLE x y) _ _
  · exact lwwCombine_comm _
      (fun x y => mergeOfCmp_comm isLawfulCmp_cmpOfLE x y) _ _
  · exact mergeAL_comm _ perm_merge_comm _ _
  · exact mergeAL_comm _
      (fun x y => lwwCombine_comm _
        (fun u v =>
          mergeOfCmp_comm (isLawfulCmp_cmpOption isLawfulCmp_cmpOfLE) u v) x y) _ _

theorem keyparams_merge_idem (a : KeyParams) : KeyParams.merge a a = a := by
  cases a
  unfold KeyParams.merge
  simp only [KeyParams.mk.injEq]
  refine ⟨trivial, ?_, ?_, ?_, ?_⟩
  · exact lwwCombine_idem _
      (fun x => mergeOfCmp_idem isLawfulCmp_cmpOfLE x) _
  · exact lwwCombine_idem _
      (fun x => mergeOfCmp_idem isLawfulCmp_cmpOfLE x) _
  · exact mergeAL_idem _ perm_merge_idem _
  · exact mergeAL_idem _
      (fun x => lwwCombine_idem _
        (fun u => mergeOfCmp_idem (isLawfulCmp_cmpOption isLawfulCmp_cmpOfLE) u) x) _

theorem deletable_merge_assoc {T : Type} (m : T → T → T)
    (hm : ∀ x y z, m (m x y) z = m x (m y z)) (a b c : Deletable T) :
    Deletable.merge m (Deletable.merge m a b) c
      = Deletable.merge m a (Deletable.merge m b c) := by
  cases a <;> cases b <;> cases c <;> simp [Deletable.merge, hm]

theorem deletable_merge_idem {T : Type} (m : T → T → T)
    (hm : ∀ x, m x x = x) (a : Deletable T) :
    Deletable.merge m a a = a := by
  cases a <;> simp [Deletable.merge, hm]

theorem key_merge_assoc (a b c : Key) :
    Key.merge (Key.merge a b) c = Key.merge a (Key.merge b c) := by
  unfold Key.merge
  exact congrArg (Key.mk a.key_id)
    (deletable_merge_assoc KeyParams.merge keyparams_merge_assoc
      a.state b.state c.state)

theorem key_merge_idem (a : Key) : Key.merge a a = a := by
  cases a
  unfold Key.merge
  simp [deletable_merge_idem KeyParams.merge keyparams_merge_idem]

theorem key_merge_comm (a b : Key) (hid : a.key_id = b.key_id)
    (hsec : ∀ pa pb, a.state = .present pa → b.state = .present pb →
      pa.secret_key = pb.secret_key) :
    Key.merge a b = Key.merge b a := by
  have h1 : Deletable.merge KeyParams.merge a.state b.state
      = Deletable.merge KeyParams.merge b.state a.state := by
    cases ha : a.state <;> cases hb : b.state <;> simp [Deletable.merge]
    exact keyparams_merge_comm _ _ (hsec _ _ ha hb)
  unfold Key.merge
  exact congr (congrArg Key.mk hid) h1

theorem ovs_merge_assoc (x y z : ObjectVersionState) :
    ObjectVersionState.merge (ObjectVersionState.merge x y) z
      = ObjectVersionState.merge x (ObjectVersionState.merge y z) := by
  cases z <;> cases y <;> cases x <;>
    simp [ObjectVersionState.merge, ObjectVersionData.merge,
      mergeOfCmp_assoc isLawfulCmp_cmpData]

theorem ovs_merge_idem (x : ObjectVersionState) :
    ObjectVersionState.merge x x = x := by
  cases x <;>
    simp [ObjectVersionState.merge, ObjectVersionData.merge,
      mergeOfCmp_idem isLawfulCmp_cmpData]

/-! Sample keys used in the C3 witness. -/

def kp0 : KeyParams :=
  { secret_key := "5ecr3t", name := (0, "alice"), allow_create_bucket := (0, false),
    authorized_buckets := [], local_aliases := [] }

def kp1 : KeyParams :=
  { secret_key := "5ecr3t", name := (1, "bob"), allow_create_bucket := (0, false),
    authorized_buckets := [], local_aliases := [] }

def keyA : Key := { key_id := "GK00", state := .present kp0 }

def keyB : Key := { key_id := "GK00", state := .present kp1 }

/-- Objects with two distinct Uploading states at the same `(timestamp,
uuid)` key, used to exhibit non-commutativity of `Object::merge`. -/
def objU0 : Object :=
  { bucket_id := 0, key := "k",
    versions := [{ uuid := 0, timestamp := 0, state := .uploading false hdr0 }] }

def objU1 : Object :=
  { bucket_id := 0, key := "k",
    versions := [{ uuid := 0, timestamp := 0, state := .uploading false hdr1 }] }

/-- C3 counterexample: `ObjectVersionState::merge` is not commutative as
the claim states: merging two distinct `Uploading` states keeps the
left-hand one (`Uploading {..} => {}` in the source), so the two orders
disagree. -/
theorem crdt_merge_not_commutative_counterexample :
    ObjectVersionState.merge (.uploading false hdr0) (.uploading false hdr1)
      ≠ ObjectVersionState.merge (.uploading false hdr1) (.uploading false hdr0) := by
  decide

/-- C3 amended: `Key::merge` is associative and idempotent, and
commutative for two states of the same row (same `key_id`) whose present
params carry the same (immutable, unmerged) `secret_key`;
`ObjectVersionState::merge` is associative and idempotent but not
commutative (two distinct `Uploading` states keep the left one); and
`Object::merge` is, in general, neither idempotent, nor commutative, nor
associative: the compaction step drops versions preceding the last
Complete one, and the `Uploading` asymmetry propagates per key. -/
theorem crdt_merge_laws_amended :
    (∀ a b c : Key, Key.merge (Key.merge a b) c = Key.merge a (Key.merge b c)) ∧
    (∀ a : Key, Key.merge a a = a) ∧
    (∀ a b : Key, a.key_id = b.key_id →
      (∀ pa pb, a.state = .present pa → b.state = .present pb →
        pa.secret_key = pb.secret_key) →
      Key.merge a b = Key.merge b a) ∧
    (∀ x y z : ObjectVersionState,
      ObjectVersionState.merge (ObjectVersionState.merge x y) z
        = ObjectVersionState.merge x (ObjectVersionState.merge y z)) ∧
    (∀ x : ObjectVersionState, ObjectVersionState.merge x x = x) ∧
    (∃ x y : ObjectVersionState,
      ObjectVersionState.merge x y ≠ ObjectVersionState.merge y x) ∧
    (∃ a : Object, VersionsSorted a.versions ∧ Object.merge a a ≠ a) ∧
    (∃ a b : Object, VersionsSorted a.versions ∧ VersionsSorted b.versions ∧
      a.bucket_id = b.bucket_id ∧ a.key = b.key ∧
      Object.merge a b ≠ Object.merge b a) ∧
    (∃ a c : Object, VersionsSorted a.versions ∧ VersionsSorted c.versions ∧
      Object.merge (Object.merge a a) c ≠ Object.merge a (Object.merge a c)) := by
  refine ⟨key_merge_assoc, key_merge_idem, key_merge_comm,
    ovs_merge_assoc, ovs_merge_idem, ?_, ?_, ?_, ?_⟩
  · exact ⟨.uploading true hdr0, .uploading true hdr1, by decide⟩
  · exact ⟨objUC, by decide, by decide⟩
  · exact ⟨objU0, objU1, by decide, by decide, rfl, rfl, by decide⟩
  · exact ⟨objUC, objA, by decide, by decide, by decide⟩

/-- Witness for C3 (amended): the hypothesis-carrying commutativity part
applied to two concrete keys of the same row with equal secrets. -/
theorem crdt_merge_laws_amended_witness :
    Key.merge keyA keyB = Key.merge keyB keyA :=
  crdt_merge_laws_amended.2.2.1 keyA keyB rfl
    (by intro pa pb ha hb
        have h1 := Deletable.present.inj ha
        have h2 := Deletable.present.inj hb
        rw [← h1, ← h2]
        rfl)

/-! ### Resync queue key encoding (`src/block/manager.rs`,
`put_to_resync_at` lines 428-435 and `resync_iter` lines 463-470)

The queue key is `u64::to_be_bytes(when) ++ hash` (8 + 32 bytes); the
embedded KV store iterates keys in byte-lexicographic order. -/

/-- Big-endian byte encoding of `x` on `len` bytes (`u64::to_be_bytes`
for `len = 8`, most significant byte first). -/
def beBytes : Nat → Nat → List Nat
  | 0, _ => []
  | n + 1, x => (x / 256 ^ n) % 256 :: beBytes n x

/-- `BlockManager::put_to_resync_at` queue key: `be64(when) ++ hash`. -/
def resyncQueueKey (when : Nat) (hash : List Nat) : List Nat :=
  beBytes 8 when ++ hash

/-- Byte-lexicographic strict order on keys (order of the KV store's
key iteration). -/
def lexLt : List Nat → List Nat → Bool
  | [], [] => false
  | [], _ :: _ => true
  | _ :: _, [] => false
  | a :: as, b :: bs =>
    decide (a < b) || (decide (a = b) && lexLt as bs)

theorem beBytes_length (n x : Nat) : (beBytes n x).length = n := by
  induction n generalizing x with
  | zero => rfl
  | succ n ih => simp [beBytes, ih]

theorem beBytes_mod (n x : Nat) : beBytes n (x % 256 ^ n) = beBytes n x := by
  induction n generalizing x with
  | zero => rfl
  | succ n ih =>
    have hdvd : (256 : Nat) ^ n ∣ 256 ^ (n + 1) := pow_dvd_pow 256 (Nat.le_succ n)
    have hhead : x % 256 ^ (n + 1) / 256 ^ n = x / 256 ^ n % 256 := by
      rw [pow_succ]
      exact Nat.mod_mul_right_div_self x (256 ^ n) 256
    have htail : beBytes n (x % 256 ^ (n + 1)) = beBytes n x := by
      rw [← ih (x % 256 ^ (n + 1)), Nat.mod_mod_of_dvd _ hdvd, ih]
    simp only [beBytes, htail, hhead, List.cons.injEq]
    exact ⟨by omega, trivial⟩

theorem lexLt_irrefl (l : List Nat) : lexLt l l = false := by
  induction l with
  | nil => rfl
  | cons x xs ih => simp [lexLt, ih]

/-- Splitting `x, y < q·2^k` by quotient and remainder respects order. -/
theorem lt_iff_div_mod {q : Nat} (x y : Nat) (hq : 0 < q) :
    x < y ↔ (x / q < y / q ∨ (x / q = y / q ∧ x % q < y % q)) := by
  constructor
  · intro h
    rcases Nat.lt_or_ge (x / q) (y / q) with h' | h'
    · exact Or.inl h'
    · right
      have heq : x / q = y / q :=
        le_antisymm (Nat.div_le_div_right (le_of_lt h)) h'
      refine ⟨heq, ?_⟩
      have hx := Nat.div_add_mod x q
      have hy := Nat.div_add_mod y q
      rw [← heq] at hy
      omega
  · intro h
    rcases h with h | ⟨heq, hlt⟩
    · have hx := Nat.div_add_mod x q
      have hy := Nat.div_add_mod y q
      have hxm : x % q < q := Nat.mod_lt _ hq
      have hstep : q * (x / q) + q ≤ q * (y / q) := by
        have h1 : x / q + 1 ≤ y / q := Nat.succ_le_of_lt h
        calc q * (x / q) + q = q * (x / q + 1) := by ring
          _ ≤ q * (y / q) := Nat.mul_le_mul (le_refl q) h1
      omega
    · have hx := Nat.div_add_mod x q
      have hy := Nat.div_add_mod y q
      rw [← heq] at hy
      omega

theorem beBytes_lt_iff (n : Nat) (x y : Nat) (hx : x < 256 ^ n)
    (hy : y < 256 ^ n) :
    (lexLt (beBytes n x) (beBytes n y) = true ↔ x < y) := by
  induction n generalizing x y with
  | zero =>
    simp only [pow_zero, Nat.lt_one_iff] at hx hy
    subst hx; subst hy
    simp [beBytes, lexLt]
  | succ n ih =>
    have hq : 0 < (256 : Nat) ^ n := pow_pos (by norm_num) n
    have hxq : x / 256 ^ n < 256 := by
      rw [Nat.div_lt_iff_lt_mul hq]
      calc x < 256 ^ (n + 1) := hx
        _ = 256 * 256 ^ n := by rw [pow_succ]; ring
    have hyq : y / 256 ^ n < 256 := by
      rw [Nat.div_lt_iff_lt_mul hq]
      calc y < 256 ^ (n + 1) := hy
        _ = 256 * 256 ^ n := by rw [pow_succ]; ring
    have hdx : x / 256 ^ n % 256 = x / 256 ^ n := Nat.mod_eq_of_lt hxq
    have hdy : y / 256 ^ n % 256 = y / 256 ^ n := Nat.mod_eq_of_lt hyq
    have htx : beBytes n x = beBytes n (x % 256 ^ n) := (beBytes_mod n x).symm
    have hty : beBytes n y = beBytes n (y % 256 ^ n) := (beBytes_mod n y).symm
    have htail := ih (x % 256 ^ n) (y % 256 ^ n)
      (Nat.mod_lt _ hq) (Nat.mod_lt _ hq)
    simp only [beBytes, lexLt, Bool.or_eq_true, Bool.and_eq_true,
      decide_eq_true_eq, hdx, hdy, htx, hty, htail]
    exact (lt_iff_div_mod x y hq).symm

theorem beBytes_inj_iff {n x y : Nat} (hx : x < 256 ^ n) (hy : y < 256 ^ n) :
    beBytes n x = beBytes n y ↔ x = y := by
  constructor
  · intro h
    by_contra hne
    rcases Nat.lt_or_ge x y with h' | h'
    · have hl := (beBytes_lt_iff n x y hx hy).mpr h'
      rw [h, lexLt_irrefl] at hl
      cases hl
    · have h'' : y < x := by omega
      have hl := (beBytes_lt_iff n y x hy hx).mpr h''
      rw [h, lexLt_irrefl] at hl
      cases hl
  · intro h; rw [h]

theorem lexLt_append_iff {a b : List Nat} (s t : List Nat)
    (hlen : a.length = b.length) :
    lexLt (a ++ s) (b ++ t) = true ↔
      (lexLt a b = true ∨ (a = b ∧ lexLt s t = true)) := by
  induction a generalizing b with
  | nil =>
    cases b with
    | nil => simp [lexLt]
    | cons y ys => simp at hlen
  | cons x xs ih =>
    cases b with
    | nil => simp at hlen
    | cons y ys =>
      simp only [List.length_cons] at hlen
      simp only [List.cons_append, lexLt, Bool.or_eq_true, Bool.and_eq_true,
        decide_eq_true_eq, List.cons.injEq, List.append_eq]
      rw [ih (b := ys) (by omega)]
      tauto

/-- C9: the resync queue key for an entry scheduled at `when` for hash
`h` is `be64(when) ++ h` (8 + 32 bytes), and byte-lexicographic order of
two such keys coincides with lexicographic order on `(when, hash)`;
hence the first entry in key-iteration order is one with minimal
scheduled time. -/
theorem resync_queue_key_order (w1 w2 : Nat) (h1 h2 : List Nat)
    (hw1 : w1 < 2 ^ 64) (hw2 : w2 < 2 ^ 64)
    (hh1 : h1.length = 32) (hh2 : h2.length = 32) :
    (lexLt (resyncQueueKey w1 h1) (resyncQueueKey w2 h2) = true ↔
      (w1 < w2 ∨ (w1 = w2 ∧ lexLt h1 h2 = true))) ∧
    (resyncQueueKey w1 h1 = resyncQueueKey w2 h2 ↔ (w1 = w2 ∧ h1 = h2)) := by
  have hb : (256 : Nat) ^ 8 = 2 ^ 64 := by norm_num
  have hw1' : w1 < 256 ^ 8 := by rw [hb]; exact hw1
  have hw2' : w2 < 256 ^ 8 := by rw [hb]; exact hw2
  constructor
  · unfold resyncQueueKey
    rw [lexLt_append_iff h1 h2 (by rw [beBytes_length, beBytes_length]),
      beBytes_lt_iff 8 w1 w2 hw1' hw2', beBytes_inj_iff hw1' hw2']
  · unfold resyncQueueKey
    constructor
    · intro h
      have hlen : (beBytes 8 w1).length = (beBytes 8 w2).length := by
        rw [beBytes_length, beBytes_length]
      have h1' := List.append_inj_left' h (by rw [hh1, hh2])
      have h2' := List.append_inj_right' h (by rw [hh1, hh2])
      exact ⟨(beBytes_inj_iff hw1' hw2').mp h1', h2'⟩
    · rintro ⟨hw, hh⟩
      rw [hw, hh]

/-- Witness for C9 at two concrete keys. -/
theorem resync_queue_key_order_witness :
    (lexLt (resyncQueueKey 5 (List.replicate 32 9))
        (resyncQueueKey 6 (List.replicate 32 0)) = true ↔
      (5 < 6 ∨ (5 = 6 ∧ lexLt (List.replicate 32 9) (List.replicate 32 0) = true))) ∧
    (resyncQueueKey 5 (List.replicate 32 9) = resyncQueueKey 6 (List.replicate 32 0) ↔
      (5 = 6 ∧ List.replicate 32 9 = List.replicate 32 0)) :=
  resync_queue_key_order 5 6 (List.replicate 32 9) (List.replicate 32 0)
    (by norm_num) (by norm_num) (by decide) (by decide)

/-! ### Resync retry backoff (`src/block/manager.rs`, `ErrorCounter`
lines 852-896 and `resync_iter` lines 500-528)

u64 arithmetic is modelled by `Nat`: `errors` is always ≥ 1 (created at
1, only incremented), so `errors - 1` never underflows, and
`delay_msec ≤ 60000 · 2^10 < 2^64` never overflows. -/

def RESYNC_RETRY_DELAY_MS : Nat := 60000

/-- `ErrorCounter`: number of consecutive resync errors and the time of
the last try. -/
structure ErrorCounter where
  errors : Nat
  last_try : Nat
deriving DecidableEq, Repr

def ErrorCounter.new (now : Nat) : ErrorCounter :=
  { errors := 1, last_try := now }

def ErrorCounter.add1 (ec : ErrorCounter) (now : Nat) : ErrorCounter :=
  { errors := ec.errors + 1, last_try := now }

def ErrorCounter.delay_msec (ec : ErrorCounter) : Nat :=
  RESYNC_RETRY_DELAY_MS <<< min (ec.errors - 1) 10

def ErrorCounter.next_try (ec : ErrorCounter) : Nat :=
  ec.last_try + ec.delay_msec

/-- The error bookkeeping of one `resync_iter` pass (lines 508-528):
on failure the counter is incremented (or created) with
`last_try = now + 1` and the hash is requeued at `next_try()`; on
success the error entry is removed.  Returns the new error-table entry
for the hash and the requeue time. -/
def resync_iter_update (prev : Option ErrorCounter) (now : Nat)
    (failed : Bool) : Option ErrorCounter × Option Nat :=
  if failed then
    let ec := match prev with
      | some ec => ec.add1 (now + 1)
      | none => ErrorCounter.new (now + 1)
    (some ec, some ec.next_try)
  else (none, none)

/-- Error-counter state after consecutive failures at the given times. -/
def failuresFold (times : List Nat) : Option ErrorCounter :=
  times.foldl (fun prev now => (resync_iter_update prev now true).1) none

theorem failuresFold_append (ts : List Nat) (t : Nat) :
    failuresFold (ts ++ [t]) = some (match failuresFold ts with
      | some ec => ec.add1 (t + 1)
      | none => ErrorCounter.new (t + 1)) := by
  unfold failuresFold
  rw [List.foldl_append]
  simp [resync_iter_update]

/-- C7: after `k = ts.length + 1 ≥ 1` consecutive failures, the last
recorded failure time is `t + 1` (for an iteration at time `t`) and the
next retry is scheduled at that time plus
`RESYNC_RETRY_DELAY · 2^min(k-1, 10)` milliseconds (doubling per failure,
capped at `2^10 · 60 s`); a successful resync clears the error counter
and requeues nothing. -/
theorem resync_retry_backoff :
    (∀ (ts : List Nat) (t : Nat), ∃ ec : ErrorCounter,
        failuresFold (ts ++ [t]) = some ec ∧
        ec.errors = ts.length + 1 ∧
        ec.last_try = t + 1 ∧
        ec.next_try = (t + 1) + RESYNC_RETRY_DELAY_MS * 2 ^ min ts.length 10) ∧
    (∀ (prev : Option ErrorCounter) (now : Nat), ∃ ec : ErrorCounter,
        resync_iter_update prev now true = (some ec, some ec.next_try)) ∧
    (∀ (prev : Option ErrorCounter) (now : Nat),
        resync_iter_update prev now false = (none, none)) := by
  refine ⟨?_, ?_, ?_⟩
  · intro ts t
    induction ts using List.reverseRecOn generalizing t with
    | nil =>
      refine ⟨ErrorCounter.new (t + 1), ?_, rfl, rfl, ?_⟩
      · rw [failuresFold_append]
        rfl
      · simp [ErrorCounter.next_try, ErrorCounter.delay_msec, ErrorCounter.new,
          Nat.shiftLeft_eq]
    | append_singleton ts s ih =>
      obtain ⟨ec, hfold, herr, hlast, _⟩ := ih s
      refine ⟨ec.add1 (t + 1), ?_, ?_, rfl, ?_⟩
      · rw [failuresFold_append, hfold]
      · simp [ErrorCounter.add1, herr, List.length_append]
      · simp [ErrorCounter.next_try, ErrorCounter.delay_msec, ErrorCounter.add1,
          herr, Nat.shiftLeft_eq, List.length_append]
  · intro prev now
    cases prev with
    | none => exact ⟨ErrorCounter.new (now + 1), rfl⟩
    | some ec => exact ⟨ec.add1 (now + 1), rfl⟩
  · intro prev now
    rfl

/-- Witness for C7: three consecutive failures at times 10, 20, 30 give
`errors = 3`, `last_try = 31` and a retry scheduled `4·60 s` later. -/
theorem resync_retry_backoff_witness :
    ∃ ec : ErrorCounter,
        failuresFold ([10, 20] ++ [30]) = some ec ∧
        ec.errors = [10, 20].length + 1 ∧
        ec.last_try = 30 + 1 ∧
        ec.next_try = (30 + 1) + RESYNC_RETRY_DELAY_MS * 2 ^ min [10, 20].length 10 :=
  resync_retry_backoff.1 [10, 20] 30

/-! ### Copy precondition headers (`src/api/s3/copy.rs`, lines 496-585)

Header dates become `Nat` milliseconds; `v_date = UNIX_EPOCH +
Duration::from_millis(v.timestamp)` so `SystemTime` comparisons are `Nat`
comparisons on `v.timestamp`. -/

inductive CopyError where
  | badRequest
  | preconditionFailed
deriving DecidableEq, Repr

structure CopyPreconditionHeaders where
  copy_source_if_match : Option (List String)
  copy_source_if_modified_since : Option Nat
  copy_source_if_none_match : Option (List String)
  copy_source_if_unmodified_since : Option Nat
deriving DecidableEq, Repr

/-- `CopyPreconditionHeaders::check` (copy.rs lines 545-585).  The `ok`
value is `none` for the wildcard match arm, which in the source returns
`Err(bad_request)` from inside the match. -/
def CopyPreconditionHeaders.check (h : CopyPreconditionHeaders)
    (v : ObjectVersion) (etag : String) : Except CopyError Unit :=
  let v_date := v.timestamp
  let ok : Option Bool :=
    match h.copy_source_if_match, h.copy_source_if_unmodified_since,
          h.copy_source_if_none_match, h.copy_source_if_modified_since with
    | some im, _, none, none => some (im.any (fun x => x == etag || x == "*"))
    | none, some ius, none, none => some (decide (v_date ≤ ius))
    | none, none, some inm, some ims =>
        some (!inm.any (fun x => x == etag || x == "*") && decide (v_date > ims))
    | none, none, some inm, none => some (!inm.any (fun x => x == etag || x == "*"))
    | none, none, none, some ims => some (decide (v_date > ims))
    | none, none, none, none => some true
    | _, _, _, _ => none
  match ok with
  | none => .error .badRequest
  | some true => .ok ()
  | some false => .error .preconditionFailed

/-- The write side of `handle_copy` (copy.rs lines 38-81): the
precondition check at line 46 propagates its error with `?` before any
destination object row is inserted. -/
def handle_copy_stores (h : CopyPreconditionHeaders) (v : ObjectVersion)
    (etag : String) (dest : Object) : List Object :=
  match h.check v etag with
  | .ok _ => [dest]
  | .error _ => []

/-- The six header combinations accepted by `check` (any other
combination is a bad request). -/
def validPreconditionCombo (h : CopyPreconditionHeaders) : Prop :=
  (h.copy_source_if_match.isSome = true ∧ h.copy_source_if_none_match = none ∧
    h.copy_source_if_modified_since = none) ∨
  (h.copy_source_if_match = none ∧ h.copy_source_if_unmodified_since.isSome = true ∧
    h.copy_source_if_none_match = none ∧ h.copy_source_if_modified_since = none) ∨
  (h.copy_source_if_match = none ∧ h.copy_source_if_unmodified_since = none ∧
    h.copy_source_if_none_match.isSome = true ∧
    h.copy_source_if_modified_since.isSome = true) ∨
  (h.copy_source_if_match = none ∧ h.copy_source_if_unmodified_since = none ∧
    h.copy_source_if_none_match.isSome = true ∧
    h.copy_source_if_modified_since = none) ∨
  (h.copy_source_if_match = none ∧ h.copy_source_if_unmodified_since = none ∧
    h.copy_source_if_none_match = none ∧
    h.copy_source_if_modified_since.isSome = true) ∨
  (h.copy_source_if_match = none ∧ h.copy_source_if_unmodified_since = none ∧
    h.copy_source_if_none_match = none ∧ h.copy_source_if_modified_since = none)

theorem chk_if_match {im : List String} {h : CopyPreconditionHeaders}
    (h1 : h.copy_source_if_match = some im)
    (h2 : h.copy_source_if_none_match = none)
    (h3 : h.copy_source_if_modified_since = none)
    (v : ObjectVersion) (etag : String) :
    h.check v etag =
      (if im.any (fun x => x == etag || x == "*") then .ok ()
       else .error .preconditionFailed) := by
  obtain ⟨f1, f2, f3, f4⟩ := h
  dsimp only at h1 h2 h3
  subst h1; subst h2; subst h3
  unfold CopyPreconditionHeaders.check
  cases hb : im.any (fun x => x == etag || x == "*") <;> simp [hb]

theorem chk_if_unmodified {ius : Nat} {h : CopyPreconditionHeaders}
    (h1 : h.copy_source_if_match = none)
    (h2 : h.copy_source_if_unmodified_since = some ius)
    (h3 : h.copy_source_if_none_match = none)
    (h4 : h.copy_source_if_modified_since = none)
    (v : ObjectVersion) (etag : String) :
    h.check v etag =
      (if v.timestamp ≤ ius then .ok () else .error .preconditionFailed) := by
  obtain ⟨f1, f2, f3, f4⟩ := h
  dsimp only at h1 h2 h3 h4
  subst h1; subst h2; subst h3; subst h4
  unfold CopyPreconditionHeaders.check
  by_cases hb : v.timestamp ≤ ius <;> simp [hb]

theorem chk_if_none_match_and_modified {inm : List String} {ims : Nat}
    {h : CopyPreconditionHeaders}
    (h1 : h.copy_source_if_match = none)
    (h2 : h.copy_source_if_unmodified_since = none)
    (h3 : h.copy_source_if_none_match = some inm)
    (h4 : h.copy_source_if_modified_since = some ims)
    (v : ObjectVersion) (etag : String) :
    h.check v etag =
      (if !inm.any (fun x => x == etag || x == "*") && decide (v.timestamp > ims)
       then .ok () else .error .preconditionFailed) := by
  obtain ⟨f1, f2, f3, f4⟩ := h
  dsimp only at h1 h2 h3 h4
  subst h1; subst h2; subst h3; subst h4
  unfold CopyPreconditionHeaders.check
  cases hb : (!inm.any (fun x => x == etag || x == "*") && decide (v.timestamp > ims)) <;>
    simp [hb]

theorem chk_if_none_match {inm : List String} {h : CopyPreconditionHeaders}
    (h1 : h.copy_source_if_match = none)
    (h2 : h.copy_source_if_unmodified_since = none)
    (h3 : h.copy_source_if_none_match = some inm)
    (h4 : h.copy_source_if_modified_since = none)
    (v : ObjectVersion) (etag : String) :
    h.check v etag =
      (if !inm.any (fun x => x == etag || x == "*") then .ok ()
       else .error .preconditionFailed) := by
  obtain ⟨f1, f2, f3, f4⟩ := h
  dsimp only at h1 h2 h3 h4
  subst h1; subst h2; subst h3; subst h4
  unfold CopyPreconditionHeaders.check
  cases hb : inm.any (fun x => x == etag || x == "*") <;> simp [hb]

theorem chk_if_modified {ims : Nat} {h : CopyPreconditionHeaders}
    (h1 : h.copy_source_if_match = none)
    (h2 : h.copy_source_if_unmodified_since = none)
    (h3 : h.copy_source_if_none_match = none)
    (h4 : h.copy_source_if_modified_since = some ims)
    (v : ObjectVersion) (etag : String) :
    h.check v etag =
      (if v.timestamp > ims then .ok () else .error .preconditionFailed) := by
  obtain ⟨f1, f2, f3, f4⟩ := h
  dsimp only at h1 h2 h3 h4
  subst h1; subst h2; subst h3; subst h4
  unfold CopyPreconditionHeaders.check
  by_cases hb : v.timestamp > ims <;> simp [hb]

theorem chk_no_headers {h : CopyPreconditionHeaders}
    (h1 : h.copy_source_if_match = none)
    (h2 : h.copy_source_if_unmodified_since = none)
    (h3 : h.copy_source_if_none_match = none)
    (h4 : h.copy_source_if_modified_since = none)
    (v : ObjectVersion) (etag : String) :
    h.check v etag = .ok () := by
  obtain ⟨f1, f2, f3, f4⟩ := h
  dsimp only at h1 h2 h3 h4
  subst h1; subst h2; subst h3; subst h4
  rfl

theorem chk_bad_request {h : CopyPreconditionHeaders}
    (hnv : ¬ validPreconditionCombo h) (v : ObjectVersion) (etag : String) :
    h.check v etag = .error .badRequest := by
  obtain ⟨f1, f2, f3, f4⟩ := h
  cases f1 <;> cases f2 <;> cases f3 <;> cases f4 <;>
    simp_all [validPreconditionCombo, CopyPreconditionHeaders.check]

/-- C4: the copy-source precondition truth table of
`CopyPreconditionHeaders::check`: `if-match` (alone or with
`if-unmodified-since`) succeeds iff a listed etag equals the source etag
or is `*`; `if-unmodified-since` alone succeeds iff the version date is
≤ the header date; `if-none-match` plus `if-modified-since` requires
both; `if-none-match` alone and `if-modified-since` alone check their
single condition; no headers always succeeds; any other combination is a
BadRequest; an unsatisfied valid precondition yields PreconditionFailed,
and on any check error no destination object is written. -/
theorem copy_precondition_semantics (h : CopyPreconditionHeaders)
    (v : ObjectVersion) (etag : String) :
    (∀ im, h.copy_source_if_match = some im →
      h.copy_source_if_none_match = none →
      h.copy_source_if_modified_since = none →
      h.check v etag =
        (if im.any (fun x => x == etag || x == "*") then .ok ()
         else .error .preconditionFailed)) ∧
    (∀ ius, h.copy_source_if_match = none →
      h.copy_source_if_unmodified_since = some ius →
      h.copy_source_if_none_match = none →
      h.copy_source_if_modified_since = none →
      h.check v etag =
        (if v.timestamp ≤ ius then .ok () else .error .preconditionFailed)) ∧
    (∀ inm ims, h.copy_source_if_match = none →
      h.copy_source_if_unmodified_since = none →
      h.copy_source_if_none_match = some inm →
      h.copy_source_if_modified_since = some ims →
      h.check v etag =
        (if !inm.any (fun x => x == etag || x == "*") && decide (v.timestamp > ims)
         then .ok () else .error .preconditionFailed)) ∧
    (∀ inm, h.copy_source_if_match = none →
      h.copy_source_if_unmodified_since = none →
      h.copy_source_if_none_match = some inm →
      h.copy_source_if_modified_since = none →
      h.check v etag =
        (if !inm.any (fun x => x == etag || x == "*") then .ok ()
         else .error .preconditionFailed)) ∧
    (∀ ims, h.copy_source_if_match = none →
      h.copy_source_if_unmodified_since = none →
      h.copy_source_if_none_match = none →
      h.copy_source_if_modified_since = some ims →
      h.check v etag =
        (if v.timestamp > ims then .ok () else .error .preconditionFailed)) ∧
    (h.copy_source_if_match = none →
      h.copy_source_if_unmodified_since = none →
      h.copy_source_if_none_match = none →
      h.copy_source_if_modified_since = none →
      h.check v etag = .ok ()) ∧
    (¬ validPreconditionCombo h → h.check v etag = .error .badRequest) ∧
    (∀ (dest : Object) (e : CopyError), h.check v etag = .error e →
      handle_copy_stores h v etag dest = []) := by
  refine ⟨?_, ?_, ?_, ?_, ?_, ?_, ?_, ?_⟩
  · intro im h1 h2 h3; exact chk_if_match h1 h2 h3 v etag
  · intro ius h1 h2 h3 h4; exact chk_if_unmodified h1 h2 h3 h4 v etag
  · intro inm ims h1 h2 h3 h4
    exact chk_if_none_match_and_modified h1 h2 h3 h4 v etag
  · intro inm h1 h2 h3 h4; exact chk_if_none_match h1 h2 h3 h4 v etag
  · intro ims h1 h2 h3 h4; exact chk_if_modified h1 h2 h3 h4 v etag
  · intro h1 h2 h3 h4; exact chk_no_headers h1 h2 h3 h4 v etag
  · intro hnv; exact chk_bad_request hnv v etag
  · intro dest e he
    unfold handle_copy_stores
    rw [he]

/-- Witness for C4: `if-match: "abc"` against source etag `"abc"`. -/
theorem copy_precondition_semantics_witness :
    CopyPreconditionHeaders.check ⟨some ["abc"], none, none, none⟩ vCompl "abc" =
      (if ["abc"].any (fun x => x == "abc" || x == "*") then .ok ()
       else .error .preconditionFailed) :=
  (copy_precondition_semantics ⟨some ["abc"], none, none, none⟩ vCompl "abc").1
    ["abc"] rfl rfl rfl

/-! ### Cluster layout advertisement (`src/rpc/system.rs`,
`handle_advertise_cluster_layout`, lines 652-701)

`ClusterLayout` itself (merge, check) lives in `rpc/layout.rs`, which is
not in the snapshot; the handler's control flow is embedded
parametrically over the layout type, its `merge` (the source's
`layout.merge(adv)` returns whether anything changed, i.e. whether the
merged value differs) and its `check`.  The state records the current
layout (the `Ring`'s layout, updated through `update_ring`), the layouts
persisted by `save_cluster_layout`, and the layouts re-broadcast to
peers. -/

structure AdvertiseState (L : Type) where
  layout : L
  saved : List L
  broadcast : List L

def handle_advertise_cluster_layout {L : Type} [DecidableEq L]
    (replication_factor : L → Nat) (check : L → Bool) (mergeL : L → L → L)
    (local_rf : Nat) (st : AdvertiseState L) (adv : L) :
    AdvertiseState L × Except String Unit :=
  if replication_factor adv ≠ local_rf then
    (st, .error "Received a cluster layout from another node with a different replication factor. Discarding the cluster layout we received.")
  else
    -- prev_layout_check = check st.layout; layout = mergeL st.layout adv
    if mergeL st.layout adv ≠ st.layout then
      if check st.layout && !check (mergeL st.layout adv) then
        (st, .error "New cluster layout is invalid, discarding.")
      else
        ({ layout := mergeL st.layout adv,
           saved := st.saved ++ [mergeL st.layout adv],
           broadcast := st.broadcast ++ [mergeL st.layout adv] }, .ok ())
    else
      (st, .ok ())

/-- C8: `handle_advertise_cluster_layout` preserves layout validity: a
layout with a different replication factor is rejected with an error and
the local state is unchanged; a merge that changes the layout while the
previous layout passed `check()` and the merged one fails it is rejected
with an error and the local state is unchanged; an accepted changing
merge installs the merged layout, persists it and re-broadcasts it; and
whenever the current layout passes `check()`, so does the resulting
layout. -/
theorem advertise_cluster_layout_invariant {L : Type} [DecidableEq L]
    (replication_factor : L → Nat) (check : L → Bool) (mergeL : L → L → L)
    (local_rf : Nat) (st : AdvertiseState L) (adv : L) :
    (replication_factor adv ≠ local_rf →
      (handle_advertise_cluster_layout replication_factor check mergeL
          local_rf st adv).1 = st ∧
      ∃ msg, (handle_advertise_cluster_layout replication_factor check mergeL
          local_rf st adv).2 = .error msg) ∧
    (replication_factor adv = local_rf →
      mergeL st.layout adv ≠ st.layout →
      check st.layout = true → check (mergeL st.layout adv) = false →
      (handle_advertise_cluster_layout replication_factor check mergeL
          local_rf st adv).1 = st ∧
      ∃ msg, (handle_advertise_cluster_layout replication_factor check mergeL
          local_rf st adv).2 = .error msg) ∧
    (replication_factor adv = local_rf →
      mergeL st.layout adv ≠ st.layout →
      ¬(check st.layout = true ∧ check (mergeL st.layout adv) = false) →
      handle_advertise_cluster_layout replication_factor check mergeL
          local_rf st adv
        = ({ layout := mergeL st.layout adv,
             saved := st.saved ++ [mergeL st.layout adv],
             broadcast := st.broadcast ++ [mergeL st.layout adv] }, .ok ())) ∧
    (replication_factor adv = local_rf →
      mergeL st.layout adv = st.layout →
      handle_advertise_cluster_layout replication_factor check mergeL
          local_rf st adv = (st, .ok ())) ∧
    (check st.layout = true →
      check ((handle_advertise_cluster_layout replication_factor check mergeL
          local_rf st adv).1).layout = true) := by
  refine ⟨?_, ?_, ?_, ?_, ?_⟩
  · intro hrf
    unfold handle_advertise_cluster_layout
    rw [if_pos hrf]
    exact ⟨rfl, _, rfl⟩
  · intro hrf hch hprev hnew
    unfold handle_advertise_cluster_layout
    rw [if_neg (by simp [hrf]), if_pos hch, if_pos (by simp [hprev, hnew])]
    exact ⟨rfl, _, rfl⟩
  · intro hrf hch hok
    have hcond : ¬((check st.layout && !check (mergeL st.layout adv)) = true) := by
      simp only [Bool.and_eq_true, Bool.not_eq_true']
      exact hok
    unfold handle_advertise_cluster_layout
    rw [if_neg (by simp [hrf]), if_pos hch, if_neg hcond]
  · intro hrf hch
    unfold handle_advertise_cluster_layout
    rw [if_neg (by simp [hrf]), if_neg (by simp [hch])]
  · intro hprev
    unfold handle_advertise_cluster_layout
    split_ifs with h1 h2 h3
    · exact hprev
    · exact hprev
    · show check (mergeL st.layout adv) = true
      simp only [hprev, Bool.true_and, Bool.not_eq_true'] at h3
      cases hc : check (mergeL st.layout adv)
      · exact absurd hc h3
      · rfl
    · exact hprev

/-- Witness for C8: an accepted merge on a concrete layout type. -/
theorem advertise_cluster_layout_invariant_witness :
    handle_advertise_cluster_layout (L := Nat) (fun _ => 3)
        (fun n => decide (n ≤ 10)) (fun a b => max a b) 3
        { layout := 1, saved := [], broadcast := [] } 5
      = ({ layout := max 1 5, saved := [max 1 5], broadcast := [max 1 5] },
          .ok ()) :=
  (advertise_cluster_layout_invariant (fun _ => 3) (fun n => decide (n ≤ 10))
      (fun a b => max a b) 3 { layout := 1, saved := [], broadcast := [] } 5).2.2.1
    rfl (by decide) (by decide)

/-! ### Block manager (`src/block/manager.rs`)

Hashes are `Nat`; node ids are `Nat`.  The Blake2b hash function and
zstd decompression come from external crates and are oracles in a
`HashEnv`.  RPC outcomes are oracles supplied to each embedded function;
effects (queries sent, blocks sent, file deletions) are returned as an
action trace in program order. -/

def BLOCK_RW_TIMEOUT_MS : Nat := 30000

def NEED_BLOCK_QUERY_TIMEOUT_MS : Nat := 5000

def BLOCK_GC_DELAY_MS : Nat := 600000

def PRIO_NORMAL : Nat := 1

def PRIO_BACKGROUND : Nat := 2

inductive BlockError where
  | corruptData (hash : Nat)
  | message (msg : String)
  | io
deriving DecidableEq, Repr

/-- A (possibly compressed) block payload (`DataBlock`, `block/block.rs`,
not in the snapshot; modelled from the spec: a block file is stored
plain or zstd-compressed). -/
inductive DataBlock where
  | plain (data : List Nat)
  | compressed (data : List Nat)
deriving DecidableEq, Repr

structure HashEnv where
  blake2b : List Nat → Nat
  unzstd : List Nat → Option (List Nat)

/-- `DataBlock::verify_get` (modelled from the spec: "verifies
`blake2b(data)==hash` after decompression", returning the decompressed
bytes on success and `CorruptData` otherwise). -/
def DataBlock.verify_get (b : DataBlock) (env : HashEnv) (hash : Nat) :
    Except BlockError (List Nat) :=
  match b with
  | .plain d => if env.blake2b d = hash then .ok d else .error (.corruptData hash)
  | .compressed d =>
    match env.unzstd d with
    | some p => if env.blake2b p = hash then .ok p else .error (.corruptData hash)
    | none => .error (.corruptData hash)

/-- `DataBlock::verify` (modelled from the spec, same integrity check
without returning the data). -/
def DataBlock.verify (b : DataBlock) (env : HashEnv) (hash : Nat) : Bool :=
  match b.verify_get env hash with
  | .ok _ => true
  | .error _ => false

/-- `BlockRpc` (manager.rs lines 58-73). -/
inductive BlockRpc where
  | ok
  | getBlock (hash : Nat)
  | putBlock (hash : Nat) (data : DataBlock)
  | needBlockQuery (hash : Nat)
  | needBlockReply (needed : Bool)
deriving DecidableEq, Repr

/-- `RequestStrategy` (rpc helper): priority, required quorum, timeout,
and the interrupt-after-quorum flag. -/
structure RequestStrategy where
  priority : Nat
  rs_quorum : Nat
  timeout_ms : Nat
  interrupt_after_quorum : Bool
deriving DecidableEq, Repr

structure RpcCall where
  nodes : List Nat
  msg : BlockRpc
  strategy : RequestStrategy
deriving DecidableEq, Repr

/-- The `try_call_many` invocation issued by `rpc_get_raw_block`
(manager.rs lines 159-173): `GetBlock(hash)` to `read_nodes(hash)` with
priority NORMAL, quorum 1, the block R/W timeout, and
`interrupt_after_quorum(true)`. -/
def rpc_get_raw_block_call (readNodes : List Nat) (hash : Nat) : RpcCall :=
  { nodes := readNodes,
    msg := .getBlock hash,
    strategy := { priority := PRIO_NORMAL, rs_quorum := 1,
                  timeout_ms := BLOCK_RW_TIMEOUT_MS,
                  interrupt_after_quorum := true } }

/-- Response processing of `rpc_get_raw_block` (lines 175-183): the
first `PutBlock` reply wins, otherwise an error. -/
def rpc_get_raw_block (resps : Except BlockError (List BlockRpc)) :
    Except BlockError DataBlock :=
  match resps with
  | .error e => .error e
  | .ok rs =>
    match rs.findSome? (fun r => match r with
      | .putBlock _ data => some data
      | _ => none) with
    | some data => .ok data
    | none => .error (.message "Unable to read block: no valid blocks returned")

/-- `BlockManager::rpc_get_block` (lines 189-191):
`rpc_get_raw_block(hash).verify_get(hash)`. -/
def rpc_get_block (env : HashEnv) (hash : Nat)
    (resps : Except BlockError (List BlockRpc)) : Except BlockError (List Nat) :=
  match rpc_get_raw_block resps with
  | .error e => .error e
  | .ok data => data.verify_get env hash

/-- Server-side effects of the read path. -/
inductive SrvAction where
  | moveCorrupted (compressed : Bool)
  | putToResyncDelay (delay_ms : Nat)
deriving DecidableEq, Repr

/-- `BlockManager::read_block_internal` (lines 332-370).  `file` is the
on-disk state for this hash: `none` when no file exists, otherwise the
compression flag (`is_block_compressed`) and the file contents.  A
failed verification moves the file to `.corrupted`
(`move_block_to_corrupted`, lines 820-835, keeping the `.zst` part of
the name when compressed), requeues the hash for resync with zero delay,
and returns `CorruptData`. -/
def read_block_internal (env : HashEnv) (file : Option (Bool × List Nat))
    (hash : Nat) : Except BlockError DataBlock × List SrvAction :=
  match file with
  | none => (.error .io, [.putToResyncDelay (2 * BLOCK_RW_TIMEOUT_MS)])
  | some (compressed, bytes) =>
    if (if compressed then DataBlock.compressed bytes
        else DataBlock.plain bytes).verify env hash then
      (.ok (if compressed then DataBlock.compressed bytes
            else DataBlock.plain bytes), [])
    else
      (.error (.corruptData hash),
        [.moveCorrupted compressed, .putToResyncDelay 0])

/-- C6: `rpc_get_block` sends `GetBlock` to `read_nodes(hash)` with
required quorum 1 and `interrupt_after_quorum` set, and returns bytes
only when the Blake2b hash of the (decompressed) received data equals
the requested hash; on the serving node, a stored file failing hash
verification is renamed `.corrupted`, requeued for resync with zero
delay, and `CorruptData` is returned instead of data. -/
theorem rpc_get_block_semantics (env : HashEnv) (hash : Nat)
    (readNodes : List Nat) (resps : Except BlockError (List BlockRpc))
    (file : Option (Bool × List Nat)) :
    ((rpc_get_raw_block_call readNodes hash).nodes = readNodes ∧
     (rpc_get_raw_block_call readNodes hash).msg = .getBlock hash ∧
     (rpc_get_raw_block_call readNodes hash).strategy.rs_quorum = 1 ∧
     (rpc_get_raw_block_call readNodes hash).strategy.interrupt_after_quorum
       = true) ∧
    (∀ bytes, rpc_get_block env hash resps = .ok bytes →
      env.blake2b bytes = hash) ∧
    (∀ compressed bytes, file = some (compressed, bytes) →
      (if compressed then DataBlock.compressed bytes
       else DataBlock.plain bytes).verify env hash = false →
      read_block_internal env file hash =
        (.error (.corruptData hash),
          [.moveCorrupted compressed, .putToResyncDelay 0])) := by
  refine ⟨⟨rfl, rfl, rfl, rfl⟩, ?_, ?_⟩
  · intro bytes h
    unfold rpc_get_block at h
    split at h
    · exact Except.noConfusion h
    · rename_i data heq
      cases data with
      | plain d =>
        simp only [DataBlock.verify_get] at h
        split_ifs at h with hb <;>
          first
            | (cases h; exact hb)
            | exact Except.noConfusion h
            | exact hb
      | compressed d =>
        simp only [DataBlock.verify_get] at h
        split at h <;>
          first
            | (split_ifs at h with hb <;>
                first
                  | (cases h; exact hb)
                  | exact Except.noConfusion h
                  | exact hb)
            | exact Except.noConfusion h
  · intro compressed bytes hfile hverify
    subst hfile
    simp only [read_block_internal]
    rw [hverify]
    simp

/-- Witness for C6 at a concrete environment and a corrupt file. -/
theorem rpc_get_block_semantics_witness :
    (∀ bytes,
      rpc_get_block { blake2b := fun l => l.length, unzstd := fun l => some l } 2
          (.ok [.putBlock 2 (.plain [5, 5])]) = .ok bytes →
      (fun l : List Nat => l.length) bytes = 2) ∧
    read_block_internal { blake2b := fun l => l.length, unzstd := fun l => some l }
        (some (false, [1, 2, 3])) 99 =
      (.error (.corruptData 99), [.moveCorrupted false, .putToResyncDelay 0]) := by
  constructor
  · exact (rpc_get_block_semantics
      { blake2b := fun l => l.length, unzstd := fun l => some l } 2 []
      (.ok [.putBlock 2 (.plain [5, 5])]) none).2.1
  · exact (rpc_get_block_semantics
      { blake2b := fun l => l.length, unzstd := fun l => some l } 99 []
      (.error .io) (some (false, [1, 2, 3]))).2.2 false [1, 2, 3] rfl rfl

/-- Local reference-counter entry (`RcEntry`, `block/rc.rs`, not in the
snapshot; modelled from the spec: count ≥ 0; when the count reaches 0
the block is retained for the GC delay, after which the entry is
deletable). -/
inductive RcEntry where
  | absent
  | present (count : Nat)
  | deletable (at_time : Nat)
deriving DecidableEq, Repr

def RcEntry.is_deletable (e : RcEntry) (now : Nat) : Bool :=
  match e with
  | .absent => true
  | .present _ => false
  | .deletable t => decide (t < now)

def RcEntry.is_nonzero (e : RcEntry) : Bool :=
  match e with
  | .present _ => true
  | _ => false

/-- `BlockStatus` (manager.rs lines 744-747); the source field `exists`
is a Lean keyword and is renamed `fileExists`. -/
structure BlockStatus where
  fileExists : Bool
  needed : RcEntry
deriving DecidableEq, Repr

/-- Oracles for one `resync_block(hash)` run: current time, this node's
id, the replication table's write nodes and write quorum for the hash,
the `check_block_status` result, and the outcomes of the RPCs and local
I/O the function may perform. -/
structure ResyncEnv where
  now : Nat
  selfId : Nat
  writeNodes : List Nat
  writeQuorum : Nat
  status : BlockStatus
  needReply : Nat → Except BlockError BlockRpc
  readBlockRes : Except BlockError DataBlock
  putBlockRes : Except BlockError Unit
  fetchRes : Except BlockError DataBlock
  writeRes : Except BlockError Unit

/-- Effects of `resync_block`, in program order. -/
inductive ResyncAction where
  | callNeedQuery (node : Nat)
  | tryCallManyPutBlock (nodes : List Nat) (rq : Nat)
  | deleteLocal
  | clearRc
  | fetchBlock
  | writeLocal
deriving DecidableEq, Repr

/-- Collection of the `NeedBlockQuery` replies (manager.rs lines
586-600): the replies are awaited for all queried nodes (`join_all`),
then scanned in order; the first error or unexpected message aborts,
and the nodes that answered `true` are collected in order. -/
def collectNeeders (reply : Nat → Except BlockError BlockRpc) :
    List Nat → Except BlockError (List Nat)
  | [] => .ok []
  | n :: ns =>
    match reply n with
    | .error e => .error e
    | .ok (.needBlockReply needed) =>
      match collectNeeders reply ns with
      | .error e => .error e
      | .ok rest => .ok (if needed then n :: rest else rest)
    | .ok _ => .error (.message "unexpected rpc message")

/-- `BlockManagerLocked::delete_if_unneeded` (manager.rs lines 837-849):
re-check the block status under the mutation lock and remove the file if
it still exists and is deletable (sequential model: same status). -/
def delete_if_unneeded (env : ResyncEnv) : List ResyncAction :=
  if env.status.fileExists && env.status.needed.is_deletable env.now then
    [.deleteLocal]
  else []

/-- The `exists && is_deletable` offload branch of
`BlockManager::resync_block` (manager.rs lines 567-643). -/
def resync_block_offload (env : ResyncEnv) :
    Except BlockError Unit × List ResyncAction :=
  if env.status.fileExists && env.status.needed.is_deletable env.now then
    if env.writeNodes.length < env.writeQuorum then
      (.error (.message "Not trying to offload block because we don't have a quorum of nodes to write to"), [])
    else
      match collectNeeders env.needReply
          (env.writeNodes.filter (fun id => id ≠ env.selfId)) with
      | .error e =>
        (.error e, (env.writeNodes.filter (fun id => id ≠ env.selfId)).map
          ResyncAction.callNeedQuery)
      | .ok need_nodes =>
        if need_nodes.isEmpty then
          (.ok (), (env.writeNodes.filter (fun id => id ≠ env.selfId)).map
              ResyncAction.callNeedQuery
            ++ delete_if_unneeded env ++ [.clearRc])
        else
          match env.readBlockRes with
          | .error e =>
            (.error e, (env.writeNodes.filter (fun id => id ≠ env.selfId)).map
              ResyncAction.callNeedQuery)
          | .ok _ =>
            match env.putBlockRes with
            | .error e =>
              (.error e, (env.writeNodes.filter (fun id => id ≠ env.selfId)).map
                  ResyncAction.callNeedQuery
                ++ [.tryCallManyPutBlock need_nodes need_nodes.length])
            | .ok _ =>
              (.ok (), (env.writeNodes.filter (fun id => id ≠ env.selfId)).map
                  ResyncAction.callNeedQuery
                ++ [.tryCallManyPutBlock need_nodes need_nodes.length]
                ++ delete_if_unneeded env ++ [.clearRc])
  else (.ok (), [])

/-- `BlockManager::resync_block` (manager.rs lines 549-659): the offload
branch followed by the fetch branch (`is_nonzero && !exists`); any error
aborts the iteration (`?`). -/
def resync_block (env : ResyncEnv) :
    Except BlockError Unit × List ResyncAction :=
  match resync_block_offload env with
  | (.error e, acts) => (.error e, acts)
  | (.ok _, acts) =>
    if env.status.needed.is_nonzero && !env.status.fileExists then
      match env.fetchRes with
      | .error e => (.error e, acts ++ [.fetchBlock])
      | .ok _ =>
        match env.writeRes with
        | .error e => (.error e, acts ++ [.fetchBlock, .writeLocal])
        | .ok _ => (.ok (), acts ++ [.fetchBlock, .writeLocal])
    else (.ok (), acts)

theorem resync_block_of_offload_error {env : ResyncEnv} {e : BlockError}
    {acts : List ResyncAction}
    (h : resync_block_offload env = (.error e, acts)) :
    resync_block env = (.error e, acts) := by
  unfold resync_block
  rw [h]

theorem resync_block_of_offload_ok {env : ResyncEnv} {acts : List ResyncAction}
    (h : resync_block_offload env = (.ok (), acts))
    (hex : env.status.fileExists = true) :
    resync_block env = (.ok (), acts) := by
  unfold resync_block
  rw [h, hex]
  simp

theorem deleteLocal_not_mem_queries (l : List Nat) :
    ResyncAction.deleteLocal ∉ l.map ResyncAction.callNeedQuery := by
  simp [List.mem_map]

/-- C1: in the resync loop, when the local file exists and the RC entry
is deletable, the local file is deleted only after a `NeedBlockQuery`
has been sent to every other node of `write_nodes(hash)` and — when some
answered `true` — the block has been sent to exactly those nodes via a
`PutBlock` `try_call_many` with required quorum equal to their number;
if fewer than `write_quorum` write nodes exist, or any query, local
read, or send fails, the iteration returns an error and no deletion
happens. -/
theorem resync_offload_before_delete (env : ResyncEnv)
    (hex : env.status.fileExists = true)
    (hdel : env.status.needed.is_deletable env.now = true) :
    (env.writeNodes.length < env.writeQuorum →
      ∃ e, resync_block env = (.error e, [])) ∧
    (∀ e, ¬ env.writeNodes.length < env.writeQuorum →
      collectNeeders env.needReply
          (env.writeNodes.filter (fun id => id ≠ env.selfId)) = .error e →
      resync_block env = (.error e,
        (env.writeNodes.filter (fun id => id ≠ env.selfId)).map
          ResyncAction.callNeedQuery)) ∧
    (∀ need_nodes, ¬ env.writeNodes.length < env.writeQuorum →
      collectNeeders env.needReply
          (env.writeNodes.filter (fun id => id ≠ env.selfId)) = .ok need_nodes →
      ((need_nodes = [] →
        resync_block env = (.ok (),
          (env.writeNodes.filter (fun id => id ≠ env.selfId)).map
            ResyncAction.callNeedQuery ++ [.deleteLocal, .clearRc])) ∧
       (∀ e, need_nodes ≠ [] → env.readBlockRes = .error e →
        resync_block env = (.error e,
          (env.writeNodes.filter (fun id => id ≠ env.selfId)).map
            ResyncAction.callNeedQuery)) ∧
       (∀ d e, need_nodes ≠ [] → env.readBlockRes = .ok d →
        env.putBlockRes = .error e →
        resync_block env = (.error e,
          (env.writeNodes.filter (fun id => id ≠ env.selfId)).map
            ResyncAction.callNeedQuery
            ++ [.tryCallManyPutBlock need_nodes need_nodes.length])) ∧
       (∀ d, need_nodes ≠ [] → env.readBlockRes = .ok d →
        env.putBlockRes = .ok () →
        resync_block env = (.ok (),
          (env.writeNodes.filter (fun id => id ≠ env.selfId)).map
            ResyncAction.callNeedQuery
            ++ [.tryCallManyPutBlock need_nodes need_nodes.length,
                .deleteLocal, .clearRc])))) ∧
    (ResyncAction.deleteLocal ∈ (resync_block env).2 →
      (resync_block env).1 = .ok ()) := by
  have hcond :
      (env.status.fileExists && env.status.needed.is_deletable env.now) = true := by
    rw [hex, hdel]
    rfl
  have hdiu : delete_if_unneeded env = [.deleteLocal] := by
    unfold delete_if_unneeded
    rw [hcond]
    rfl
  have main :
      (env.writeNodes.length < env.writeQuorum →
        ∃ e, resync_block env = (.error e, [])) ∧
      (∀ e, ¬ env.writeNodes.length < env.writeQuorum →
        collectNeeders env.needReply
            (env.writeNodes.filter (fun id => id ≠ env.selfId)) = .error e →
        resync_block env = (.error e,
          (env.writeNodes.filter (fun id => id ≠ env.selfId)).map
            ResyncAction.callNeedQuery)) ∧
      (∀ need_nodes, ¬ env.writeNodes.length < env.writeQuorum →
        collectNeeders env.needReply
            (env.writeNodes.filter (fun id => id ≠ env.selfId)) = .ok need_nodes →
        ((need_nodes = [] →
          resync_block env = (.ok (),
            (env.writeNodes.filter (fun id => id ≠ env.selfId)).map
              ResyncAction.callNeedQuery ++ [.deleteLocal, .clearRc])) ∧
         (∀ e, need_nodes ≠ [] → env.readBlockRes = .error e →
          resync_block env = (.error e,
            (env.writeNodes.filter (fun id => id ≠ env.selfId)).map
              ResyncAction.callNeedQuery)) ∧
         (∀ d e, need_nodes ≠ [] → env.readBlockRes = .ok d →
          env.putBlockRes = .error e →
          resync_block env = (.error e,
            (env.writeNodes.filter (fun id => id ≠ env.selfId)).map
              ResyncAction.callNeedQuery
              ++ [.tryCallManyPutBlock need_nodes need_nodes.length])) ∧
         (∀ d, need_nodes ≠ [] → env.readBlockRes = .ok d →
          env.putBlockRes = .ok () →
          resync_block env = (.ok (),
            (env.writeNodes.filter (fun id => id ≠ env.selfId)).map
              ResyncAction.callNeedQuery
              ++ [.tryCallManyPutBlock need_nodes need_nodes.length,
                  .deleteLocal, .clearRc])))) := by
    refine ⟨?_, ?_, ?_⟩
    · intro hq
      refine ⟨.message "Not trying to offload block because we don't have a quorum of nodes to write to", ?_⟩
      apply resync_block_of_offload_error
      unfold resync_block_offload
      rw [hcond, if_pos rfl, if_pos hq]
    · intro e hq hcoll
      apply resync_block_of_offload_error
      unfold resync_block_offload
      rw [hcond, if_pos rfl, if_neg hq, hcoll]
    · intro need_nodes hq hcoll
      refine ⟨?_, ?_, ?_, ?_⟩
      · intro hni
        subst hni
        apply resync_block_of_offload_ok ?_ hex
        unfold resync_block_offload
        rw [hcond, if_pos rfl, if_neg hq, hcoll]
        simp [hdiu]
      · intro e hni hread
        apply resync_block_of_offload_error
        unfold resync_block_offload
        rw [hcond, if_pos rfl, if_neg hq, hcoll, hread]
        simp [List.isEmpty_eq_true, hni]
      · intro d e hni hread hput
        apply resync_block_of_offload_error
        unfold resync_block_offload
        rw [hcond, if_pos rfl, if_neg hq, hcoll, hread, hput]
        simp [List.isEmpty_eq_true, hni]
      · intro d hni hread hput
        apply resync_block_of_offload_ok ?_ hex
        unfold resync_block_offload
        rw [hcond, if_pos rfl, if_neg hq, hcoll, hread, hput]
        simp [List.isEmpty_eq_true, hni, hdiu]
  refine ⟨main.1, main.2.1, main.2.2, ?_⟩
  intro hmem
  by_cases hq : env.writeNodes.length < env.writeQuorum
  · obtain ⟨e, he⟩ := main.1 hq
    rw [he] at hmem
    simp at hmem
  · rcases hcoll : collectNeeders env.needReply
        (env.writeNodes.filter (fun id => id ≠ env.selfId)) with e | need_nodes
    · rw [main.2.1 e hq hcoll] at hmem
      exact absurd hmem (deleteLocal_not_mem_queries _)
    · by_cases hni : need_nodes = []
      · rw [(main.2.2 need_nodes hq hcoll).1 hni]
      · rcases hread : env.readBlockRes with e | d
        · rw [(main.2.2 need_nodes hq hcoll).2.1 e hni hread] at hmem
          exact absurd hmem (deleteLocal_not_mem_queries _)
        · rcases hput : env.putBlockRes with e | u
          · rw [(main.2.2 need_nodes hq hcoll).2.2.1 d e hni hread hput] at hmem
            simp [List.mem_append, List.mem_map] at hmem
          · cases u
            rw [(main.2.2 need_nodes hq hcoll).2.2.2 d hni hread hput]

/-- Concrete resync environment for the C1 witness: 3 write nodes,
quorum 2, both other nodes need the block, every RPC succeeds. -/
def envC1 : ResyncEnv :=
  { now := 1000000,
    selfId := 0,
    writeNodes := [0, 1, 2],
    writeQuorum := 2,
    status := { fileExists := true, needed := .deletable 5 },
    needReply := fun _ => .ok (.needBlockReply true),
    readBlockRes := .ok (.plain [1]),
    putBlockRes := .ok (),
    fetchRes := .ok (.plain [1]),
    writeRes := .ok () }

/-- Witness for C1: a fully successful offload queries nodes 1 and 2,
sends the block to both with quorum 2, and only then deletes the local
file and clears the RC tombstone. -/
theorem resync_offload_before_delete_witness :
    resync_block envC1 = (.ok (),
      (envC1.writeNodes.filter (fun id => id ≠ envC1.selfId)).map
        ResyncAction.callNeedQuery
        ++ [.tryCallManyPutBlock [1, 2] [1, 2].length, .deleteLocal, .clearRc]) :=
  ((resync_offload_before_delete envC1 rfl (by decide)).2.2.1 [1, 2]
      (by decide) rfl).2.2.2 (.plain [1]) (by decide) rfl rfl

/-! ### CompleteMultipartUpload (`src/api/s3/multipart.rs`, lines
209-366)

MPU parts (`mpu_table.rs`, not in the snapshot) are modelled from the
spec: `parts: map<(part_no, ts), {version, etag?, size?}>` as a sorted
association list; `Version.blocks` is the sorted `(part, offset) →
{hash, size}` map.  MD5 comes from an external crate and is an oracle.
Etag strings are ASCII, so `as_bytes` is the code-point list. -/

structure MpuPartKey where
  part_number : Nat
  timestamp : Nat
deriving DecidableEq, Repr

structure MpuPart where
  version : Nat
  etag : Option String
  size : Option Nat
deriving DecidableEq, Repr

structure CompleteMultipartUploadPart where
  etag : String
  part_number : Nat
deriving DecidableEq, Repr

structure VersionBlockKey where
  part_number : Nat
  offset : Nat
deriving DecidableEq, Repr

structure VersionBlock where
  hash : Nat
  block_size : Nat
deriving DecidableEq, Repr

structure Version where
  deleted : Bool
  blocks : List (VersionBlockKey × VersionBlock)
deriving DecidableEq, Repr

inductive S3Error where
  | badRequest (msg : String)
  | entityTooSmall
  | invalidPartOrder
  | invalidPart
  | quotaExceeded
  | internalError
deriving DecidableEq, Repr

def hexDigit (d : Nat) : Char :=
  if d < 10 then Char.ofNat (48 + d) else Char.ofNat (87 + d)

def hexByte (b : Nat) : List Char :=
  [hexDigit (b / 16 % 16), hexDigit (b % 16)]

/-- `hex::encode`. -/
def hexEncode (bytes : List Nat) : String :=
  String.mk (bytes.foldr (fun b acc => hexByte b ++ acc) [])

/-- `str::as_bytes` for the ASCII etag strings handled here. -/
def strBytes (s : String) : List Nat :=
  s.data.map Char.toNat

/-- The `have_parts` HashMap (multipart.rs lines 263-266): entries are
inserted in iteration order of the MPU part map, so for a repeated part
number the last (greatest timestamp) entry wins. -/
def have_parts (mpuParts : List (MpuPartKey × MpuPart)) (pn : Nat) :
    Option MpuPart :=
  mpuParts.foldl
    (fun acc kv => if kv.1.part_number = pn then some kv.2 else acc) none

/-- Matching the client's part list against the stored parts
(multipart.rs lines 267-275): each requested part number must exist with
the same etag and a recorded size. -/
def matchParts (mpuParts : List (MpuPartKey × MpuPart)) :
    List CompleteMultipartUploadPart → Except S3Error (List MpuPart)
  | [] => .ok []
  | req :: rest =>
    match have_parts mpuParts req.part_number with
    | some part =>
      if part.etag = some req.etag ∧ part.size.isSome then
        match matchParts mpuParts rest with
        | .error e => .error e
        | .ok tl => .ok (part :: tl)
      else .error .invalidPart
    | none => .error .invalidPart

/-- Fetching each matched part's Version row (lines 278-284). -/
def getPartsVersions (versionTable : Nat → Option Version) :
    List MpuPart → Except S3Error (List Version)
  | [] => .ok []
  | p :: ps =>
    match versionTable p.version with
    | none => .error .internalError
    | some v =>
      match getPartsVersions versionTable ps with
      | .error e => .error e
      | .ok tl => .ok (v :: tl)

/-- The final version's block map (lines 295-308): each part's blocks
renumbered to part `i+1`.  The source inserts into a sorted crdt map;
the insertion order here is already sorted, so a flat concatenation is
the resulting item list. -/
def finalBlocks (parts_versions : List Version) :
    List (VersionBlockKey × VersionBlock) :=
  (parts_versions.enum.map (fun iv =>
    iv.2.blocks.map (fun bv =>
      ({ part_number := iv.1 + 1, offset := bv.1.offset }, bv.2)))).join

/-- The multipart ETag (lines 318-329):
`hex(md5(concat(part_etags_bytes)))-N`. -/
def multipartEtag (md5 : List Nat → List Nat) (parts : List MpuPart) : String :=
  hexEncode (md5 ((parts.map (fun p => strBytes (p.etag.getD ""))).join))
    ++ "-" ++ toString parts.length

structure CompleteResult where
  final_object : Object
  response_etag : String
deriving DecidableEq, Repr

/-- `handle_complete_multipart_upload` (multipart.rs lines 209-366),
from the point where object, version and MPU rows have been fetched:
validation, final version construction, ETag computation, quota check,
and the final Complete object.  `quotasOk` is the outcome of
`check_quotas`; the `[]` case of `finalBlocks` models the source panic
on `items()[0]` of an empty block list. -/
def handle_complete_multipart_upload (md5 : List Nat → List Nat)
    (mpuParts : List (MpuPartKey × MpuPart))
    (bodyParts : List CompleteMultipartUploadPart)
    (versionTable : Nat → Option Version) (headers : ObjectVersionHeaders)
    (bucket_id : Nat) (key : String) (upload_id upload_ts : Nat)
    (quotasOk : Bool) : Except S3Error CompleteResult :=
  if mpuParts.isEmpty then .error (.badRequest "No data was uploaded")
  else if bodyParts.isEmpty then .error .entityTooSmall
  else if ¬ (bodyParts.zip (bodyParts.drop 1)).all
      (fun p2 => decide (p2.1.part_number < p2.2.part_number)) then
    .error .invalidPartOrder
  else
    match matchParts mpuParts bodyParts with
    | .error e => .error e
    | .ok parts =>
      match getPartsVersions versionTable parts with
      | .error e => .error e
      | .ok parts_versions =>
        if parts_versions.any (fun v => v.deleted) then .error .invalidPart
        else
          match finalBlocks parts_versions with
          | [] => .error .internalError
          | b0 :: _ =>
            if ¬ quotasOk then .error .quotaExceeded
            else
              match Object.new bucket_id key
                  [{ uuid := upload_id, timestamp := upload_ts,
                     state := .complete (.firstBlock
                       { headers := headers,
                         size := (parts.map (fun p => p.size.getD 0)).sum,
                         etag := multipartEtag md5 parts } b0.2.hash) }] with
              | none => .error .internalError
              | some final_object =>
                .ok { final_object := final_object,
                      response_etag := "\"" ++ multipartEtag md5 parts ++ "\"" }

theorem matchParts_length {mpuParts : List (MpuPartKey × MpuPart)} :
    ∀ {bodyParts : List CompleteMultipartUploadPart} {parts : List MpuPart},
      matchParts mpuParts bodyParts = .ok parts →
      parts.length = bodyParts.length := by
  intro bodyParts
  induction bodyParts with
  | nil =>
    intro parts h
    simp only [matchParts, Except.ok.injEq] at h
    subst h
    rfl
  | cons req rest ih =>
    intro parts h
    simp only [matchParts] at h
    split at h
    · split_ifs at h with hc
      split at h
      · exact Except.noConfusion h
      · rename_i tl htl
        cases h
        simp [ih htl]
    · exact Except.noConfusion h

theorem matchParts_etags {mpuParts : List (MpuPartKey × MpuPart)} :
    ∀ {bodyParts : List CompleteMultipartUploadPart} {parts : List MpuPart},
      matchParts mpuParts bodyParts = .ok parts →
      parts.map (fun p => p.etag.getD "") = bodyParts.map (fun q => q.etag) := by
  intro bodyParts
  induction bodyParts with
  | nil =>
    intro parts h
    simp only [matchParts, Except.ok.injEq] at h
    subst h
    rfl
  | cons req rest ih =>
    intro parts h
    simp only [matchParts] at h
    split at h
    · split_ifs at h with hc
      split at h
      · exact Except.noConfusion h
      · rename_i tl htl
        cases h
        simp only [List.map_cons, ih htl]
        rw [hc.1]
        rfl
    · exact Except.noConfusion h

/-- C5: for a CompleteMultipartUpload whose non-empty part list passes
validation, the ETag stored in the final Complete object version and the
ETag returned in the response both equal
`hex(md5(concat of the N parts' etag strings as bytes)) ++ "-" ++ N`
with `N` the number of parts in the request list. -/
theorem complete_multipart_etag_format (md5 : List Nat → List Nat)
    (mpuParts : List (MpuPartKey × MpuPart))
    (bodyParts : List CompleteMultipartUploadPart)
    (versionTable : Nat → Option Version) (headers : ObjectVersionHeaders)
    (bucket_id : Nat) (key : String) (upload_id upload_ts : Nat)
    (quotasOk : Bool) (r : CompleteResult)
    (h : handle_complete_multipart_upload md5 mpuParts bodyParts versionTable
        headers bucket_id key upload_id upload_ts quotasOk = .ok r) :
    r.response_etag = "\"" ++
      (hexEncode (md5 ((bodyParts.map (fun q => strBytes q.etag)).join))
        ++ "-" ++ toString bodyParts.length) ++ "\"" ∧
    ∃ meta b0h,
      r.final_object.versions =
        [{ uuid := upload_id, timestamp := upload_ts,
           state := .complete (.firstBlock meta b0h) }] ∧
      meta.etag =
        hexEncode (md5 ((bodyParts.map (fun q => strBytes q.etag)).join))
          ++ "-" ++ toString bodyParts.length := by
  unfold handle_complete_multipart_upload at h
  split_ifs at h with h1 h2 h3 <;> try exact Except.noConfusion h
  split at h
  · exact Except.noConfusion h
  · rename_i parts heq1
    split at h
    · exact Except.noConfusion h
    · rename_i parts_versions heq2
      split_ifs at h with hdel <;> try exact Except.noConfusion h
      split at h
      · exact Except.noConfusion h
      · rename_i b0 bs heq3
        have hE : multipartEtag md5 parts =
            hexEncode (md5 ((bodyParts.map (fun q => strBytes q.etag)).join))
              ++ "-" ++ toString bodyParts.length := by
          unfold multipartEtag
          rw [matchParts_length heq1]
          have hmap := congrArg (List.map strBytes) (matchParts_etags heq1)
          simp only [List.map_map] at hmap
          have hmap' :
              parts.map (fun p => strBytes (p.etag.getD "")) =
                bodyParts.map (fun q => strBytes q.etag) := by
            simpa [Function.comp] using hmap
          rw [hmap']
        split at h
        · exact Except.noConfusion h
        · rename_i fo heq4
          have hnew : Object.new bucket_id key
              [{ uuid := upload_id, timestamp := upload_ts,
                 state := .complete (.firstBlock
                   { headers := headers,
                     size := (parts.map (fun p => p.size.getD 0)).sum,
                     etag := multipartEtag md5 parts } b0.2.hash) }]
              = some { bucket_id := bucket_id, key := key,
                       versions :=
                        [{ uuid := upload_id, timestamp := upload_ts,
                           state := .complete (.firstBlock
                             { headers := headers,
                               size := (parts.map (fun p => p.size.getD 0)).sum,
                               etag := multipartEtag md5 parts } b0.2.hash) }] } :=
            rfl
          rw [hnew] at heq4
          cases heq4
          cases h
          refine ⟨?_, ?_⟩
          · simp [hE]
          · exact ⟨_, _, rfl, hE⟩
  -- quota-failure branch: every remaining leaf is an error
  split at h
  · exact Except.noConfusion h
  · rename_i parts heq1
    split at h
    · exact Except.noConfusion h
    · rename_i parts_versions heq2
      split_ifs at h with hdel <;> try exact Except.noConfusion h
      split at h <;> exact Except.noConfusion h

/-! Concrete instantiation for the C5 witness. -/

def mpuPartsW : List (MpuPartKey × MpuPart) :=
  [({ part_number := 1, timestamp := 100 },
    { version := 7, etag := some "aa", size := some 5 }),
   ({ part_number := 2, timestamp := 100 },
    { version := 8, etag := some "bb", size := some 6 })]

def bodyPartsW : List CompleteMultipartUploadPart :=
  [{ etag := "aa", part_number := 1 }, { etag := "bb", part_number := 2 }]

def versionTableW : Nat → Option Version := fun n =>
  if n = 7 then
    some { deleted := false,
           blocks := [({ part_number := 1, offset := 0 },
                       { hash := 11, block_size := 5 })] }
  else if n = 8 then
    some { deleted := false,
           blocks := [({ part_number := 1, offset := 0 },
                       { hash := 12, block_size := 6 })] }
  else none

def resultW : CompleteResult :=
  { final_object :=
      { bucket_id := 0, key := "k",
        versions := [{ uuid := 42, timestamp := 9,
                       state := .complete (.firstBlock
                         { headers := hdr0, size := 11,
                           etag := "61616262-2" } 11) }] },
    response_etag := "\"61616262-2\"" }

/-- Witness for C5: a 2-part completion with the identity oracle in
place of MD5 yields ETag `hex("aabb" as bytes)-2 = 61616262-2` both in
the stored version and in the response. -/
theorem complete_multipart_etag_format_witness :
    resultW.response_etag = "\"" ++
      (hexEncode ((fun l => l) ((bodyPartsW.map (fun q => strBytes q.etag)).join))
        ++ "-" ++ toString bodyPartsW.length) ++ "\"" ∧
    ∃ meta b0h,
      resultW.final_object.versions =
        [{ uuid := 42, timestamp := 9,
           state := .complete (.firstBlock meta b0h) }] ∧
      meta.etag =
        hexEncode ((fun l => l) ((bodyPartsW.map (fun q => strBytes q.etag)).join))
          ++ "-" ++ toString bodyPartsW.length :=
  complete_multipart_etag_format (fun l => l) mpuPartsW bodyPartsW versionTableW
    hdr0 0 "k" 42 9 true resultW rfl
